import Mathlib

/-!
Verification of the rlx2nix log/table parsing and timeline reconstruction
subsystem (files rlx2nix/stimuli.py, rlx2nix/converter.py, rlx2nix/config.py)
against its natural-language specification.

Shallow embedding conventions:
  * Python strings are embedded as List Char; a file is a List (List Char)
    of its lines.
  * Python numbers are embedded exactly: int as Int, float as the exact
    rational type PyNum below (viewed in Rat through PyNum.toRat).  The
    claims under study concern control flow, value selection and unit
    conversion by powers of ten, none of which depend on binary rounding,
    so exact rationals are a faithful model of the arithmetic involved.
  * Code that can raise returns Except PyErr; a Python statement that
    cannot raise on the inputs in scope is translated directly.
  * Functions keep the source's names where Lean's lexical rules allow it.
-/

namespace Rlx2Nix

/-- Python exception kinds that the embedded code can raise. -/
inductive PyErr where
  | indexError
  | valueError
  | typeError
  | keyError
  | attributeError
  | assertionError
deriving DecidableEq, Repr

/-! ## Character and string primitives (Python str semantics on List Char) -/

/-- Whitespace characters stripped by Python str.strip() (ASCII subset). -/
def isPySpace (c : Char) : Bool :=
  c = ' ' || c = '\t' || c = '\n' || c = '\r' || c = Char.ofNat 11 || c = Char.ofNat 12

/-- Python str.strip(): remove leading and trailing whitespace. -/
def pyStrip (s : List Char) : List Char :=
  ((s.dropWhile isPySpace).reverse.dropWhile isPySpace).reverse

/-- Number of leading space characters: len(line) - len(line.lstrip(" ")). -/
def leadingSpaces (s : List Char) : Nat :=
  (s.takeWhile (· = ' ')).length

/-- Python s.startswith(p). -/
def pyStartsWith (s p : List Char) : Bool :=
  p.isPrefixOf s

/-- Python substring containment: p in s. -/
def containsSub (s p : List Char) : Bool :=
  (List.range (s.length + 1)).any (fun i => p.isPrefixOf (s.drop i))

/-- Helper for pyFind: first occurrence index of pat in s, counting from i. -/
def pyFindGo (pat : List Char) : List Char → Nat → Int
  | [], i => if pat.isEmpty then (i : Int) else -1
  | c :: rest, i =>
    if pat.isPrefixOf (c :: rest) then (i : Int) else pyFindGo pat rest (i + 1)

/-- Python s.find(pat, start): index of the first occurrence of pat at or
after start, or -1; a negative start counts from the end of s, clamped at 0. -/
def pyFind (s pat : List Char) (start : Int) : Int :=
  let st : Nat := if start < 0 then ((s.length : Int) + start).toNat else start.toNat
  if st > s.length then -1 else pyFindGo pat (s.drop st) st

/-- Python s.lower() (ASCII). -/
def pyLower (s : List Char) : List Char :=
  s.map Char.toLower

/-- The text after the last colon of a line: l.split(":")[-1] (the whole
line when there is no colon). -/
def afterLastColon (l : List Char) : List Char :=
  (l.reverse.takeWhile (· ≠ ':')).reverse

/-- Helper for resplit: accumulate the current field until a run of two or
more whitespace characters starts, then emit it and skip the run.  The fuel
argument (at least the list length) keeps the recursion structural, so that
the kernel can evaluate it. -/
def resplitGo : Nat → List Char → List Char → List (List Char)
  | 0, acc, _ => [acc.reverse]
  | _ + 1, acc, [] => [acc.reverse]
  | fuel + 1, acc, c :: rest =>
    if isPySpace c then
      match rest with
      | [] => [(c :: acc).reverse]
      | c2 :: rest2 =>
        if isPySpace c2 then
          acc.reverse :: resplitGo fuel [] (rest2.dropWhile isPySpace)
        else
          resplitGo fuel (c :: acc) (c2 :: rest2)
    else
      resplitGo fuel (c :: acc) rest

/-- Python re.split of a string on runs of two or more whitespace characters
(the pattern backslash-s-two-or-more used throughout the table parser).
On the empty string this yields a single empty field, as re.split does. -/
def resplit (s : List Char) : List (List Char) :=
  resplitGo (s.length + 1) [] s

/-! ## Numeric token shapes (the module-level regexes of rlx2nix/util.py) -/

/-- Remove a single leading sign character. -/
def dropSign (s : List Char) : List Char :=
  match s with
  | c :: rest => if c = '+' || c = '-' then rest else s
  | [] => []

/-- The integer_number regex of util.py: caret, optional sign, one or more
digits, dollar. -/
def integer_number (s : List Char) : Bool :=
  let b := dropSign s
  !b.isEmpty && b.all Char.isDigit

/-- The decimal pattern of the specification's ValueParser: optional sign,
one or more digits, then optionally a dot followed by zero or more digits. -/
def decimalPat (s : List Char) : Bool :=
  let b := dropSign s
  let ds := b.takeWhile Char.isDigit
  let rest := b.drop ds.length
  !ds.isEmpty &&
    (rest.isEmpty ||
      (rest.head? = some '.' && (rest.drop 1).all Char.isDigit))

/-- The only_number regex of util.py: caret, optional sign, one or more
digits, an optional dot, one or more digits, dollar.  Note it requires at
least two digits when no dot is present and digits on both sides of the dot. -/
def only_number (s : List Char) : Bool :=
  let b := dropSign s
  let ds := b.takeWhile Char.isDigit
  let rest := b.drop ds.length
  if rest.isEmpty then decide (2 ≤ ds.length)
  else
    rest.head? = some '.' && !ds.isEmpty && !(rest.drop 1).isEmpty &&
      (rest.drop 1).all Char.isDigit

/-- Numeric value of a list of decimal digits. -/
def digitsVal (ds : List Char) : Nat :=
  ds.foldl (fun acc c => 10 * acc + (c.toNat - '0'.toNat)) 0

/-- Sign of a Python numeric literal: -1 for a leading minus, else 1. -/
def signOf (s : List Char) : Int :=
  match s with
  | '-' :: _ => -1
  | _ => 1

/-- Python int(s): strip whitespace, optional sign, one or more digits;
anything else raises ValueError.  (Exponents, underscores and bases other
than ten do not occur in the logs and are not modelled.) -/
def pyInt (s : List Char) : Except PyErr Int :=
  let t := pyStrip s
  if integer_number t then
    .ok (signOf t * (digitsVal (dropSign t) : Int))
  else
    .error .valueError

/-! ## Exact rationals

Python floats are modelled as exact rationals.  Mathlib's Rat does not
evaluate inside the kernel (its normalization is defined by well-founded
recursion), so the embedding carries an explicit numerator/denominator pair
with a positivity proof; PyNum.toRat maps it to the rational it denotes and
every operation commutes with toRat (lemmas below).  The claims under study
concern control flow, value selection and division by powers of ten, none
of which depend on binary floating-point rounding. -/

/-- An exact rational: numerator, positive denominator.  Not normalized;
value equality is PyNum.beq or equality of toRat images. -/
structure PyNum where
  num : Int
  den : Nat
  dpos : 0 < den
deriving DecidableEq

/-- The rational a PyNum denotes. -/
def PyNum.toRat (a : PyNum) : ℚ :=
  (a.num : ℚ) / (a.den : ℚ)

/-- Embed an integer. -/
def PyNum.ofInt (n : Int) : PyNum :=
  ⟨n, 1, Nat.one_pos⟩

/-- Multiplication. -/
def PyNum.mul (a b : PyNum) : PyNum :=
  ⟨a.num * b.num, a.den * b.den, Nat.mul_pos a.dpos b.dpos⟩

/-- Addition. -/
def PyNum.add (a b : PyNum) : PyNum :=
  ⟨a.num * b.den + b.num * a.den, a.den * b.den, Nat.mul_pos a.dpos b.dpos⟩

/-- Subtraction. -/
def PyNum.sub (a b : PyNum) : PyNum :=
  ⟨a.num * b.den - b.num * a.den, a.den * b.den, Nat.mul_pos a.dpos b.dpos⟩

/-- Division by a positive natural number (the by-1000 unit conversions). -/
def PyNum.divN (a : PyNum) (k : Nat) (h : 0 < k) : PyNum :=
  ⟨a.num, a.den * k, Nat.mul_pos a.dpos h⟩

/-- Value equality test. -/
def PyNum.beq (a b : PyNum) : Bool :=
  a.num * b.den = b.num * a.den

/-- Strict order test. -/
def PyNum.blt (a b : PyNum) : Bool :=
  a.num * b.den < b.num * a.den

theorem PyNum.den_ne {a : PyNum} : (a.den : ℚ) ≠ 0 := by
  exact_mod_cast Nat.pos_iff_ne_zero.mp a.dpos

theorem PyNum.toRat_ofInt (n : Int) : (PyNum.ofInt n).toRat = (n : ℚ) := by
  simp [PyNum.ofInt, PyNum.toRat]

theorem PyNum.toRat_mul (a b : PyNum) : (a.mul b).toRat = a.toRat * b.toRat := by
  have ha := a.den_ne
  have hb := b.den_ne
  simp only [PyNum.mul, PyNum.toRat]
  push_cast
  field_simp
  try ring

theorem PyNum.toRat_add (a b : PyNum) : (a.add b).toRat = a.toRat + b.toRat := by
  have ha := a.den_ne
  have hb := b.den_ne
  simp only [PyNum.add, PyNum.toRat]
  push_cast
  field_simp
  try ring

theorem PyNum.toRat_sub (a b : PyNum) : (a.sub b).toRat = a.toRat - b.toRat := by
  have ha := a.den_ne
  have hb := b.den_ne
  simp only [PyNum.sub, PyNum.toRat]
  push_cast
  field_simp
  try ring

theorem PyNum.toRat_divN (a : PyNum) (k : Nat) (h : 0 < k) :
    (a.divN k h).toRat = a.toRat / (k : ℚ) := by
  have ha := a.den_ne
  have hk : (k : ℚ) ≠ 0 := by exact_mod_cast Nat.pos_iff_ne_zero.mp h
  simp only [PyNum.divN, PyNum.toRat]
  push_cast
  field_simp

theorem PyNum.beq_iff {a b : PyNum} : a.beq b = true ↔ a.toRat = b.toRat := by
  have ha : (0 : ℚ) < (a.den : ℚ) := by exact_mod_cast a.dpos
  have hb : (0 : ℚ) < (b.den : ℚ) := by exact_mod_cast b.dpos
  simp only [PyNum.beq, PyNum.toRat, decide_eq_true_eq]
  rw [div_eq_div_iff (ne_of_gt ha) (ne_of_gt hb)]
  constructor
  · intro h
    exact_mod_cast congrArg (fun z : Int => (z : ℚ)) h
  · intro h
    exact_mod_cast h

theorem PyNum.blt_iff {a b : PyNum} : a.blt b = true ↔ a.toRat < b.toRat := by
  have ha : (0 : ℚ) < (a.den : ℚ) := by exact_mod_cast a.dpos
  have hb : (0 : ℚ) < (b.den : ℚ) := by exact_mod_cast b.dpos
  simp only [PyNum.blt, PyNum.toRat, decide_eq_true_eq]
  rw [div_lt_div_iff₀ ha hb]
  constructor
  · intro h
    exact_mod_cast h
  · intro h
    exact_mod_cast h

/-- Python float(s), modelled on the decimal-literal subset that occurs in
the logs: strip whitespace, optional sign, digits with at most one dot and
at least one digit overall; anything else raises ValueError.  The value is
exact (see the module comment). -/
def pyFloat (s : List Char) : Except PyErr PyNum :=
  let t := pyStrip s
  let b := dropSign t
  let ds := b.takeWhile Char.isDigit
  let rest := b.drop ds.length
  let fs := rest.drop 1
  let ok :=
    !t.isEmpty &&
      ((rest.isEmpty && !ds.isEmpty) ||
        (rest.head? = some '.' && fs.all Char.isDigit && (!ds.isEmpty || !fs.isEmpty)))
  if ok then
    .ok ⟨signOf t * (digitsVal (ds ++ fs) : Int), 10 ^ fs.length,
         Nat.pos_pow_of_pos _ (by decide)⟩
  else
    .error .valueError

/-! ## ValueParser (spec section 4.1)

The functions parse_value, guess_value_type and the type ValueType are
imported by rlx2nix/stimuli.py from rlx2nix/util.py, but their definitions
are not among the repository's files; they are modelled from the
specification here. -/

/-- A Python value as produced by the value parser and stored in table
cells: an int, a float, or a string. -/
inductive PyVal where
  | int (n : Int)
  | float (x : PyNum)
  | str (s : List Char)
deriving DecidableEq

instance {ε α : Type} [DecidableEq ε] [DecidableEq α] : DecidableEq (Except ε α) :=
  fun a b =>
    match a, b with
    | .ok x, .ok y =>
      if h : x = y then isTrue (by rw [h]) else isFalse (by intro e; cases e; exact h rfl)
    | .error x, .error y =>
      if h : x = y then isTrue (by rw [h]) else isFalse (by intro e; cases e; exact h rfl)
    | .ok _, .error _ => isFalse (by intro e; cases e)
    | .error _, .ok _ => isFalse (by intro e; cases e)

/-- Modelled from the spec: the classification returned by the missing
util.guess_value_type — integer, float, quantity-with-unit, or string. -/
inductive ValueType where
  | integer
  | floating
  | quantity
  | string
deriving DecidableEq, Repr

/-- Modelled from the spec: the missing module-level table of known unit
strings, an ordered list in which the longest (most specific) suffix is
listed first so that it wins when units collide (spec section 4.1). -/
def unitTable : List (List Char) :=
  [['M','O','h','m'], ['k','H','z'], ['m','V'], ['m','s'], ['H','z'],
   ['u','S'], ['m','m'], ['u','m'], ['V'], ['s'], ['g'], ['%']]

/-- A token matching the spec's integer or decimal pattern. -/
def numericPat (s : List Char) : Bool :=
  integer_number s || decimalPat s

/-- The token without its last n characters. -/
def dropSuffixN (s : List Char) (n : Nat) : List Char :=
  s.take (s.length - n)

/-- First unit of the table that is a suffix of the token with a numeric
remainder; returns the unit and the remainder. -/
def findUnitMatch : List (List Char) → List Char → Option (List Char × List Char)
  | [], _ => none
  | u :: us, s =>
    if !u.isEmpty && u.isSuffixOf s && numericPat (dropSuffixN s u.length) then
      some (u, dropSuffixN s u.length)
    else
      findUnitMatch us s

/-- Exact numeric value of a token matching the spec's integer or decimal
pattern: the int value for the integer pattern, else the float value. -/
def numFromPattern (s : List Char) : PyVal :=
  if integer_number s then
    .int (signOf s * (digitsVal (dropSign s) : Int))
  else
    .float ⟨signOf s * (digitsVal ((dropSign s).filter (· ≠ '.')) : Int),
      10 ^ ((dropSign s).dropWhile Char.isDigit |>.drop 1).length,
      Nat.pos_pow_of_pos _ (by decide)⟩

/-- Modelled from the spec: the missing util.guess_value_type.  Order of
tests per spec section 4.1: integer pattern, then decimal pattern, then
number-with-known-unit-suffix, else string. -/
def guess_value_type (s : List Char) : ValueType :=
  if integer_number s then .integer
  else if decimalPat s then .floating
  else if (findUnitMatch unitTable s).isSome then .quantity
  else .string

/-- Modelled from the spec: the missing util.parse_value
(spec section 4.1, the ValueParser contract).  Strip surrounding whitespace;
an integer-pattern token yields an int with empty unit; a decimal-pattern
token yields a float with empty unit; a numeric token followed by a known
unit suffix yields the recursively classified number with that unit;
anything else is returned as the original string with empty unit. -/
def parse_value (t : List Char) : PyVal × List Char :=
  let s := pyStrip t
  if integer_number s then (numFromPattern s, [])
  else if decimalPat s then (numFromPattern s, [])
  else
    match findUnitMatch unitTable s with
    | some (u, pre) => (numFromPattern pre, u)
    | none => (.str t, [])

/-! Sanity checks of the primitives on concrete tokens. -/

example : resplit "a  b   c".toList = ["a".toList, "b".toList, "c".toList] := by decide
example : resplit "a b".toList = ["a b".toList] := by decide
example : resplit "".toList = [[]] := by decide
example : pyStrip "  ab ".toList = "ab".toList := by decide
example : pyFind "abcabc".toList "bc".toList 2 = 4 := by decide
example : pyFind "abc".toList "x".toList 0 = -1 := by decide
example : only_number "1.5".toList = true := by decide
example : only_number "5".toList = false := by decide
example : only_number "55".toList = true := by decide
example : pyInt "  12 ".toList = .ok 12 := by decide
example : (pyFloat "-2.50".toList).map (fun x => x.beq (PyNum.ofInt (-5) |>.divN 2 (by decide))) =
    .ok true := by decide
example : pyFloat "abc".toList = .error .valueError := by decide
example : (parse_value "1.5ms".toList).2 = "ms".toList := by decide
example : (parse_value "1.5ms".toList).1 = .float ⟨15, 10, by decide⟩ := by decide
example : parse_value "12".toList = (.int 12, []) := by decide
example : parse_value "sine".toList = (.str "sine".toList, []) := by decide
example : guess_value_type "5".toList = .integer := by decide
example : guess_value_type "0.5".toList = .floating := by decide
example : guess_value_type "sine".toList = .string := by decide

/-! ## Table data model (classes Column, ColumnSubgroup, ColumnGroup, Table
of rlx2nix/stimuli.py).  The parent back-references carry no information the
claims touch and are omitted; containers own their children as lists. -/

/-- A table column: name, declared 1-based ordinal, unit-or-type text, and
the data appended row by row. -/
structure Column where
  name : List Char
  number : Int
  type_or_unit : List Char
  data : List PyVal
deriving DecidableEq

/-- A subgroup owning columns, in order. -/
structure ColumnSubgroup where
  name : List Char
  columns : List Column
deriving DecidableEq

/-- A group owning subgroups, in order. -/
structure ColumnGroup where
  name : List Char
  subgroups : List ColumnSubgroup
deriving DecidableEq

/-- A table owning groups, in order. -/
structure Table where
  column_groups : List ColumnGroup
deriving DecidableEq

/-- ColumnSubgroup.column_numbers. -/
def ColumnSubgroup.column_numbers (sg : ColumnSubgroup) : List Int :=
  sg.columns.map Column.number

/-- ColumnSubgroup.column_names. -/
def ColumnSubgroup.column_names (sg : ColumnSubgroup) : List (List Char) :=
  sg.columns.map Column.name

/-- ColumnSubgroup.column with an int key: the column at the first position
of the key in column_numbers (the code indexes with list.index, which finds
the first occurrence). -/
def ColumnSubgroup.columnByNumber (sg : ColumnSubgroup) (k : Int) : Option Column :=
  sg.columns.find? (fun c => c.number = k)

/-- ColumnSubgroup.column with a str key: first column of that name. -/
def ColumnSubgroup.columnByName (sg : ColumnSubgroup) (nm : List Char) : Option Column :=
  sg.columns.find? (fun c => c.name = nm)

/-- The value Python's membership test receives from
ColumnSubgroup.__contains__: for a str key the bool of a name lookup, for an
int key the list of column numbers itself (which the in operator then
coerces to a bool by emptiness), anything else False. -/
inductive ContainsResult where
  | bool (b : Bool)
  | intList (l : List Int)
deriving DecidableEq

/-- A Python key as passed to __contains__. -/
inductive PyKey where
  | str (s : List Char)
  | int (n : Int)
  | other
deriving DecidableEq

/-- ColumnSubgroup.__contains__ of rlx2nix/stimuli.py (lines 115-121),
verbatim: a str key is tested against column_names; an int key returns
self.column_numbers (note: the list, not a membership test); any other key
returns False. -/
def ColumnSubgroup.containsKey (sg : ColumnSubgroup) (key : PyKey) : ContainsResult :=
  match key with
  | .str s => .bool (sg.column_names.contains s)
  | .int _ => .intList sg.column_numbers
  | .other => .bool false

/-- Python's coercion of the value returned by __contains__ to the bool the
in operator yields: a list is truthy when non-empty. -/
def ContainsResult.truthy : ContainsResult → Bool
  | .bool b => b
  | .intList l => !l.isEmpty

/-- ColumnGroup.find_column: first subgroup whose column_numbers contain the
number, then its column of that number. -/
def ColumnGroup.find_column (g : ColumnGroup) (k : Int) : Option Column :=
  match g.subgroups.find? (fun sg => sg.column_numbers.contains k) with
  | some sg => sg.columnByNumber k
  | none => none

/-- ColumnGroup.columns_by_name: over subgroups in order, the subgroups
containing the name (the str branch of __contains__) contribute their first
column of that name. -/
def ColumnGroup.columns_by_name (g : ColumnGroup) (nm : List Char) : List Column :=
  g.subgroups.filterMap (fun sg =>
    if sg.column_names.contains nm then sg.columnByName nm else none)

/-- ColumnGroup.column_numbers. -/
def ColumnGroup.column_numbers (g : ColumnGroup) : List Int :=
  g.subgroups.flatMap ColumnSubgroup.column_numbers

/-- ColumnGroup.column_count. -/
def ColumnGroup.column_count (g : ColumnGroup) : Nat :=
  g.column_numbers.length

/-- Table.column_count. -/
def Table.column_count (t : Table) : Nat :=
  (t.column_groups.map ColumnGroup.column_count).sum

/-- Table.keys. -/
def Table.keys (t : Table) : List (List Char) :=
  t.column_groups.map ColumnGroup.name

/-- Table.find_column: first group yielding a column of that number. -/
def Table.find_column (t : Table) (k : Int) : Option Column :=
  t.column_groups.findSome? (fun g => g.find_column k)

/-- Table.__getitem__: the group at the first position of the key in keys,
or KeyError. -/
def Table.getGroup (t : Table) (k : List Char) : Except PyErr ColumnGroup :=
  match t.column_groups.find? (fun g => g.name = k) with
  | some g => .ok g
  | none => .error .keyError

/-! ## Table.table_parser (rlx2nix/stimuli.py lines 258-401) -/

/-- Line access that raises IndexError past the end, as Python indexing does. -/
def lineAt (lines : List (List Char)) (i : Nat) : Except PyErr (List Char) :=
  match lines.get? i with
  | some l => .ok l
  | none => .error .indexError

/-- re.search of the module-level regex dot-plus RePro dot-star colon
dot-plus (case-insensitive) on a stripped line: some position at least one
character in has the text repro (lowercased), and a colon follows it with at
least one character after the colon. -/
def reproSearchB (l : List Char) : Bool :=
  let low := pyLower l
  let n := low.length
  (List.range n).any fun i =>
    decide (1 ≤ i) && "repro".toList.isPrefixOf (low.drop i) &&
      ((List.range n).any fun j =>
        decide (i + 5 ≤ j) && decide (j + 1 < n) && (low.drop j).head? = some ':')

/-- The scan loop of find_header: walk forward until a stripped line starts
with the header marker, capturing a RePro name from any line the repro
regex matches on the way. -/
def findKeyScan : List (List Char) → Nat → Option (List Char) →
    Option Nat × Option (List Char)
  | [], _, nm => (none, nm)
  | l :: rest, i, nm =>
    let ls := pyStrip l
    let nm' := if reproSearchB ls then some (pyStrip (afterLastColon ls)) else nm
    if pyStartsWith ls "#Key".toList then (some i, nm')
    else findKeyScan rest (i + 1) nm'

/-- The header-extent loop of find_header: from index i (which the caller
has read), advance while the raw line starts with a hash; stops at the first
non-hash index or at the line count. -/
def firstNonHashGo (lines : List (List Char)) : Nat → Nat → Nat
  | 0, i => i
  | fuel + 1, i =>
    match lines.get? i with
    | none => i
    | some l => if pyStartsWith l ['#'] then firstNonHashGo lines fuel (i + 1) else i

/-- find_header of table_parser: returns (start index of the header marker
line, index of the last header line, captured RePro name), or (-1, -1, name)
when no marker line exists.  The unguarded first read of lines at start + 1
raises IndexError when the marker is the last line of input. -/
def find_header (lines : List (List Char)) (start_index : Nat) :
    Except PyErr (Int × Int × Option (List Char)) :=
  match findKeyScan (lines.drop start_index) start_index none with
  | (none, nm) => .ok (-1, -1, nm)
  | (some s, nm) =>
    if lines.length ≤ s + 1 then .error .indexError
    else
      let e := firstNonHashGo lines (lines.length + 1) (s + 1)
      .ok ((s : Int), (e : Int) - 1, nm)

/-- The column-name position list of parse_columns: the first name is looked
up from the line start, each further name from one past the previous hit. -/
def colnameIdxs (line : List Char) : List (List Char) → Option Int → List Int
  | [], _ => []
  | nm :: rest, prev =>
    let idx := match prev with
      | none => pyFind line nm 0
      | some p => pyFind line nm (p + 1)
    idx :: colnameIdxs line rest (some idx)

/-- The per-column loop of parse_columns: a column whose position lies in
the subgroup's span is built from the name, the int of the ordinal-row field
at the same split index (IndexError or ValueError possible) and the type-row
field at the same split index. -/
def colsGo (coltypes colnumbers : List (List Char)) (start_pos end_pos : Int) :
    List (List Char × Int) → Nat → Except PyErr (List Column)
  | [], _ => .ok []
  | (nm, pos) :: rest, i =>
    if start_pos ≤ pos && pos < end_pos then do
      let numStr ← match colnumbers.get? i with
        | some x => Except.ok x
        | none => Except.error PyErr.indexError
      let n ← pyInt numStr
      let ty ← match coltypes.get? i with
        | some x => Except.ok x
        | none => Except.error PyErr.indexError
      let cs ← colsGo coltypes colnumbers start_pos end_pos rest (i + 1)
      .ok (⟨nm, n, ty, []⟩ :: cs)
    else
      colsGo coltypes colnumbers start_pos end_pos rest (i + 1)

/-- parse_columns of table_parser: read the column-name, type and ordinal
rows, locate each name, keep the columns inside the span; an end position of
zero or less means to the end of the line (plus ten, as in the code). -/
def parse_columns (lines : List (List Char)) (index : Nat) (start_pos end_pos : Int) :
    Except PyErr (List Column) := do
  let colname_line ← lineAt lines index
  let end_pos := if end_pos > 0 then end_pos else (colname_line.length : Int) + 10
  let colnames := resplit (pyStrip (colname_line.drop 1))
  let idxs := colnameIdxs colname_line colnames none
  let coltype_line ← lineAt lines (index + 1)
  let coltypes := resplit (pyStrip (coltype_line.drop 1))
  let colnumber_line ← lineAt lines (index + 2)
  let colnumbers := resplit (pyStrip (colnumber_line.drop 1))
  colsGo coltypes colnumbers start_pos end_pos (colnames.zip idxs) 0

/-- The subgroup position list of parse_subgroups: every name except the
last is searched with a trailing space appended, starting from the previous
hit position (not one past it). -/
def subgroupIdxs (line : List Char) : List (List Char) → Int → List Int
  | [], _ => []
  | [nm], prev => [pyFind line nm prev]
  | nm :: nm2 :: rest, prev =>
    let idx := pyFind line (nm ++ [' ']) prev
    idx :: subgroupIdxs line (nm2 :: rest) idx

/-- The per-subgroup loop of parse_subgroups: a subgroup whose position lies
in the group's span is built by parsing its columns one row down, its own
span ending one before the next subgroup position (minus one means open). -/
def sgGo (lines : List (List Char)) (index : Nat) (start_pos end_pos : Int) :
    List (List Char × Int) → Except PyErr (List ColumnSubgroup)
  | [] => .ok []
  | (nm, pos) :: rest =>
    if start_pos ≤ pos && pos < end_pos then do
      let end_position : Int := match rest with
        | [] => -1
        | (_, p2) :: _ => p2 - 1
      let cols ← parse_columns lines (index + 1) pos end_position
      let sgs ← sgGo lines index start_pos end_pos rest
      .ok (⟨nm, cols⟩ :: sgs)
    else
      sgGo lines index start_pos end_pos rest

/-- parse_subgroups of table_parser. -/
def parse_subgroups (lines : List (List Char)) (index : Nat) (start_pos end_pos : Int) :
    Except PyErr (List ColumnSubgroup) := do
  let line ← lineAt lines index
  let end_pos := if end_pos > -1 then end_pos else (line.length : Int) + 10
  let names := resplit (pyStrip (line.drop 1))
  let idxs := subgroupIdxs line names 0
  sgGo lines index start_pos end_pos (names.zip idxs)

/-- The per-group loop of parse_column_groups: every group is created; its
span ends one before the next group position (minus one means open). -/
def cgGo (lines : List (List Char)) (index : Nat) :
    List (List Char × Int) → Except PyErr (List ColumnGroup)
  | [] => .ok []
  | (nm, pos) :: rest => do
    let end_pos : Int := match rest with
      | [] => -1
      | (_, p2) :: _ => p2 - 1
    let sgs ← parse_subgroups lines (index + 1) pos end_pos
    let gs ← cgGo lines index rest
    .ok (⟨nm, sgs⟩ :: gs)

/-- parse_column_groups of table_parser. -/
def parse_column_groups (lines : List (List Char)) (index : Nat) :
    Except PyErr (List ColumnGroup) := do
  let line ← lineAt lines index
  let names := resplit (pyStrip (line.drop 1))
  let idxs := names.map (fun nm => pyFind line nm 0)
  cgGo lines index (names.zip idxs)

/-! ### read_tabledata (stimuli.py lines 355-391) -/

/-- A sniffed column element type. -/
inductive PyDtype where
  | int
  | float
  | str
deriving DecidableEq

/-- guess_column_dtype of read_tabledata: numeric-looking (integer or
floating classification) fixes the column as float, anything else as str.
It calls guess_value_type, which is modelled from the spec above. -/
def guess_column_dtype (d : List Char) : PyDtype :=
  match guess_value_type d with
  | .integer => .float
  | .floating => .float
  | _ => .str

/-- convert_data of read_tabledata (stimuli.py lines 356-365), verbatim: a
field containing a dash character anywhere, or stripping to nothing, is
returned as the literal field string; otherwise the field is converted per
the dtype, and int or float conversion raises ValueError on a field that
does not parse. -/
def convert_data (d : List Char) (dt : PyDtype) : Except PyErr PyVal :=
  if d.contains '-' || (pyStrip d).isEmpty then .ok (.str d)
  else
    match dt with
    | .int => (pyInt d).map PyVal.int
    | .float => (pyFloat d).map PyVal.float
    | .str => .ok (.str d)

/-- Append a value to the first column of the given ordinal in a column
list. -/
def appendToCol (k : Int) (v : PyVal) : List Column → List Column
  | [] => []
  | c :: cs =>
    if c.number = k then { c with data := c.data ++ [v] } :: cs
    else c :: appendToCol k v cs

/-- Append a value in the first subgroup holding the ordinal. -/
def appendInSubgroups (k : Int) (v : PyVal) : List ColumnSubgroup → List ColumnSubgroup
  | [] => []
  | sg :: sgs =>
    if sg.column_numbers.contains k then
      { sg with columns := appendToCol k v sg.columns } :: sgs
    else sg :: appendInSubgroups k v sgs

/-- Append a value in the first group resolving the ordinal. -/
def appendInGroups (k : Int) (v : PyVal) : List ColumnGroup → List ColumnGroup
  | [] => []
  | g :: gs =>
    if (g.find_column k).isSome then
      { g with subgroups := appendInSubgroups k v g.subgroups } :: gs
    else g :: appendInGroups k v gs

/-- The functional counterpart of c.append_data(d) where c is the column
Table.find_column returned: the first column of that ordinal receives the
value; when find_column found none, c is None and the append raises
AttributeError, as in the code. -/
def Table.appendData (t : Table) (k : Int) (v : PyVal) : Except PyErr Table :=
  match t.find_column k with
  | none => .error .attributeError
  | some _ => .ok ⟨appendInGroups k v t.column_groups⟩

/-- The per-cell loop of read_tabledata over column ordinals 1..count: read
the split field (IndexError on a short row), sniff the dtype on the first
data row only, convert, append. -/
def cellsGo (fields : List (List Char)) (isFirst : Bool) :
    Nat → Nat → Table → List PyDtype → Except PyErr (Table × List PyDtype)
  | _, 0, t, dts => .ok (t, dts)
  | i, n + 1, t, dts => do
    let raw ← match fields.get? i with
      | some x => Except.ok x
      | none => Except.error PyErr.indexError
    let cell := pyStrip raw
    let dt := if isFirst then guess_column_dtype cell else (dts.get? i).getD .float
    let dts' := if isFirst then dts.set i dt else dts
    let v ← convert_data cell dt
    let t' ← t.appendData ((i : Int) + 1) v
    cellsGo fields isFirst (i + 1) n t' dts'

/-- The row loop of read_tabledata: a non-blank stripped line is split on
two-or-more-whitespace runs and distributed over the columns; a blank line
ends the table.  Returns the table and the end index. -/
def readRowsGo (count : Nat) : List (List Char) → Table → List PyDtype → Nat → Nat →
    Except PyErr (Table × Nat)
  | [], t, _, e, _ => .ok (t, e)
  | l :: rest, t, dts, e, startIdx =>
    let line := pyStrip l
    if 0 < line.length then do
      let fields := resplit line
      let (t', dts') ← cellsGo fields (e == startIdx) 0 count t dts
      readRowsGo count rest t' dts' (e + 1) startIdx
    else .ok (t, e)

/-- read_tabledata of table_parser: initial dtypes are all float; rows are
consumed from start_index until a blank line or end of input. -/
def read_tabledata (lines : List (List Char)) (start_index : Nat) (t : Table) :
    Except PyErr (Table × Nat) :=
  readRowsGo t.column_count (lines.drop start_index) t
    (List.replicate t.column_count .float) start_index start_index

/-- A table with no column groups (the state of a fresh Table object before
parse_header has added any). -/
def emptyTable : Table := ⟨[]⟩

/-- Table.table_parser (stimuli.py lines 258-401): find the header; a header
extent other than exactly five lines reports (end, False); otherwise
parse_header asserts that the raw marker line starts with the header marker
(find_header matched the stripped line, so a marker with leading whitespace
raises AssertionError here; the second assert, extent exactly five, holds
by the branch condition), parses the header block into column groups and
reads the data rows; zero data rows report (end index, False), else
(end index, True). -/
def tableParser (lines : List (List Char)) (start_index : Nat) :
    Except PyErr (Table × Int × Bool) := do
  let (s, e, _nm) ← find_header lines start_index
  if e - s ≠ 5 then
    .ok (emptyTable, e, false)
  else do
    let ml ← lineAt lines s.toNat
    if pyStartsWith ml "#Key".toList then do
      let gs ← parse_column_groups lines (s.toNat + 1)
      let t : Table := ⟨gs⟩
      let (t', endIdx) ← read_tabledata lines (e.toNat + 1) t
      if e + 1 = (endIdx : Int) then
        .ok (t', (endIdx : Int), false)
      else
        .ok (t', (endIdx : Int), true)
    else
      .error .assertionError

/-! ## Concrete inputs used by the counterexamples and witnesses -/

/-- A PyNum literal with a total constructor (denominator defaulting to one
when a non-positive denominator is written, which never happens below). -/
def pnum (n : Int) (d : Nat) : PyNum :=
  if h : 0 < d then ⟨n, d, h⟩ else ⟨n, 1, Nat.one_pos⟩

/-- A one-column table whose first data row sniffs the column as float and
whose second data row is the field -5: a dash-containing, non-empty,
non-placeholder field in a float column. -/
def dashFieldLines : List (List Char) :=
  ["#Key", "#  stimulus", "#  signal", "#  dur", "#  ms", "#  1",
   "5.0", "-5"].map String.toList

/-- A one-column table whose first data row sniffs the column as float and
whose second data row is the unconvertible field abc. -/
def badCellLines : List (List Char) :=
  ["#Key", "#  stimulus", "#  signal", "#  dur", "#  ms", "#  1",
   "1.0", "abc"].map String.toList

/-- A two-column table whose second data row has only one field. -/
def shortRowLines : List (List Char) :=
  ["#Key", "#  g", "#  sg", "#  a    b", "#  s    s", "#  1    2",
   "1.0  2.0", "3.0"].map String.toList

/-! ## Claim C1 — dash/empty fields in convert_data -/

theorem contains_dash_iff (d : List Char) : d.contains '-' = true ↔ '-' ∈ d := by
  simp

/-- C1 counterexample.  The claim says a field that is a dash or empty is
stored as the one-character string "-" and every other field is converted
per the sniffed type.  Running Table.table_parser on dashFieldLines, the
column sniffs float on the first row (value 5.0), yet the second-row field
-5 — neither a bare dash nor empty — is stored as the literal string "-5"
rather than the float minus five that float conversion (shown alongside)
would produce. -/
theorem claim_C1_counterexample :
    (tableParser dashFieldLines 0).map (fun r => (r.1.find_column 1).map Column.data) =
      .ok (some [PyVal.float (pnum 50 10), PyVal.str "-5".toList]) ∧
    pyFloat "-5".toList = .ok (pnum (-5) 1) ∧
    PyVal.str "-5".toList ≠ PyVal.float (pnum (-5) 1) := by
  refine ⟨by decide, by decide, by decide⟩

/-- C1 as amended: in convert_data, a field that contains a dash character
anywhere or strips to nothing is stored as the literal field text itself
(so the placeholder dash is stored as the one-character string "-", but an
empty field stays empty and a negative number stays a string), and this is
independent of the sniffed column type; a field with no dash that does not
strip to nothing is converted per the sniffed type (int, float or str, the
numeric conversions being Python int and float). -/
theorem claim_C1_amended (d : List Char) (dt dt' : PyDtype) :
    (('-' ∈ d ∨ pyStrip d = []) →
      convert_data d dt = .ok (.str d) ∧ convert_data d dt = convert_data d dt') ∧
    ('-' ∉ d → pyStrip d ≠ [] →
      convert_data d PyDtype.float = (pyFloat d).map PyVal.float ∧
      convert_data d PyDtype.int = (pyInt d).map PyVal.int ∧
      convert_data d PyDtype.str = .ok (.str d)) := by
  constructor
  · intro h
    exact ⟨by simp [convert_data, h], by simp [convert_data, h]⟩
  · intro h1 h2
    refine ⟨?_, ?_, ?_⟩ <;> simp [convert_data, h1, h2]

/-! ## Claim C2 — malformed data rows abort the table parse -/

/-- C2: the spec requires that a cell failing to convert to its sniffed
numeric type, or a row with the wrong field count, degrade to literal
values without any exception escaping read_tabledata.  The code has no
try/except around the conversion (unlike the older table_parser in
rlx2nix/util.py, which wraps convert_data in one): on badCellLines the cell
abc in a float-sniffed column raises ValueError from float('abc'), and on
shortRowLines the one-field second row raises IndexError from data[1];
both abort the whole table parse. -/
theorem claim_C2_code_divergence :
    tableParser badCellLines 0 = .error .valueError ∧
    tableParser shortRowLines 0 = .error .indexError := by
  refine ⟨by decide, by decide⟩

/-! ## Claim C6 — table_parser failure reporting -/

/-- The input whose only line is the header marker. -/
def keyOnlyLines : List (List Char) := ["#Key".toList]

theorem findKeyScan_fst_none (ls : List (List Char)) (i : Nat) (nm : Option (List Char))
    (h : ∀ l ∈ ls, pyStartsWith (pyStrip l) "#Key".toList = false) :
    (findKeyScan ls i nm).1 = none := by
  induction ls generalizing i nm with
  | nil => rfl
  | cons l rest ih =>
    have hl := h l (List.mem_cons_self l rest)
    have hrest : ∀ l' ∈ rest, pyStartsWith (pyStrip l') "#Key".toList = false :=
      fun l' hm => h l' (List.mem_cons_of_mem l hm)
    simp only [findKeyScan, hl]
    simp only [Bool.false_eq_true, if_false]
    exact ih _ _ hrest

theorem firstNonHashGo_ge (lines : List (List Char)) (fuel i : Nat) :
    i ≤ firstNonHashGo lines fuel i := by
  induction fuel generalizing i with
  | zero => simp [firstNonHashGo]
  | succ n ih =>
    simp only [firstNonHashGo]
    cases lines.get? i with
    | none => exact le_refl i
    | some l =>
      by_cases hp : pyStartsWith l ['#'] = true
      · simp only [hp, if_true]
        exact le_trans (Nat.le_succ i) (ih (i + 1))
      · simp [hp]

/-- Structure of a successful find_header result: either the not-found pair
(-1, -1), or a start index at least zero with the header end at or past it. -/
theorem find_header_shape (lines : List (List Char)) (si : Nat) (s e : Int)
    (nm : Option (List Char)) (h : find_header lines si = .ok (s, e, nm)) :
    (s = -1 ∧ e = -1) ∨ (0 ≤ s ∧ s ≤ e) := by
  unfold find_header at h
  cases hscan : findKeyScan (lines.drop si) si none with
  | mk fstv sndv =>
    rw [hscan] at h
    cases fstv with
    | none =>
      simp only [Except.ok.injEq, Prod.mk.injEq] at h
      exact Or.inl ⟨h.1.symm, h.2.1.symm⟩
    | some k =>
      simp only at h
      by_cases hk : lines.length ≤ k + 1
      · simp [hk] at h
      · simp only [hk, if_false] at h
        simp only [Except.ok.injEq, Prod.mk.injEq] at h
        obtain ⟨hs, he, _⟩ := h
        subst hs
        have hge : k + 1 ≤ firstNonHashGo lines (lines.length + 1) (k + 1) :=
          firstNonHashGo_ge lines (lines.length + 1) (k + 1)
        refine Or.inr ⟨by positivity, ?_⟩
        rw [← he]
        omega

/-- C6 counterexample.  The claim says a header marker not followed by the
expected five-line block makes table_parser return valid = False rather
than crash; but when the marker is the very last line of input, the
unguarded read of the following line raises IndexError. -/
theorem claim_C6_counterexample :
    tableParser keyOnlyLines 0 = .error .indexError := by decide

example :
    tableParser ([" #Key", "#  g", "#  sg", "#  a", "#  s", "#  1"].map
      String.toList) 0 = .error .assertionError := by decide

/-- C6 as amended.  Table.table_parser reports failure without raising,
except in two corners: (1) when no header marker line occurs from the start
index on, it returns end index -1 with valid false; (2) when the marker is
found but is the last line of input, the code raises IndexError instead of
reporting; (3) when the marker is found, is not last, and the header extent
is not exactly five lines, it returns that extent's end with valid false;
(4) when the header extent is five lines, the raw (unstripped) marker line
starts with the marker text, the header parses, and no data row follows
(end of input or a blank line), it returns the first data index with valid
false; (5) when the header extent is five lines but the raw marker line
does not itself start with the marker text (find_header matched only the
stripped line, e.g. a marker with leading whitespace), parse_header's
assert raises AssertionError instead of reporting. -/
theorem claim_C6_amended (lines : List (List Char)) (si : Nat) :
    ((∀ l ∈ lines.drop si, pyStartsWith (pyStrip l) "#Key".toList = false) →
      tableParser lines si = .ok (emptyTable, -1, false)) ∧
    (∀ k, (findKeyScan (lines.drop si) si none).1 = some k →
      lines.length ≤ k + 1 → tableParser lines si = .error .indexError) ∧
    (∀ s e nm, find_header lines si = .ok (s, e, nm) → e - s ≠ 5 →
      tableParser lines si = .ok (emptyTable, e, false)) ∧
    (∀ s e nm ml gs, find_header lines si = .ok (s, e, nm) → e - s = 5 →
      lineAt lines s.toNat = .ok ml → pyStartsWith ml "#Key".toList = true →
      parse_column_groups lines (s.toNat + 1) = .ok gs →
      (match lines.drop (e.toNat + 1) with
        | [] => True
        | l :: _ => pyStrip l = []) →
      tableParser lines si = .ok (⟨gs⟩, e + 1, false)) ∧
    (∀ s e nm ml, find_header lines si = .ok (s, e, nm) → e - s = 5 →
      lineAt lines s.toNat = .ok ml → pyStartsWith ml "#Key".toList = false →
      tableParser lines si = .error .assertionError) := by
  refine ⟨?_, ?_, ?_, ?_, ?_⟩
  · intro h
    have hnone : (findKeyScan (lines.drop si) si none).1 = none :=
      findKeyScan_fst_none _ _ _ h
    cases hscan : findKeyScan (lines.drop si) si none with
    | mk fstv sndv =>
      rw [hscan] at hnone
      subst hnone
      have hfh : find_header lines si = .ok (-1, -1, sndv) := by
        unfold find_header
        rw [hscan]
      simp [tableParser, hfh, bind, Except.bind]
  · intro k hscan1 hlen
    cases hscan : findKeyScan (lines.drop si) si none with
    | mk fstv sndv =>
      rw [hscan] at hscan1
      subst hscan1
      have hfh : find_header lines si = .error .indexError := by
        unfold find_header
        rw [hscan]
        simp [hlen]
      simp [tableParser, hfh, bind, Except.bind]
  · intro s e nm hfh hne
    simp [tableParser, hfh, hne, bind, Except.bind]
  · intro s e nm ml gs hfh h5 hml hkey hgs hblank
    have hshape := find_header_shape lines si s e nm hfh
    rcases hshape with ⟨hs, he⟩ | ⟨hs0, hse⟩
    · omega
    · have hrt : read_tabledata lines (e.toNat + 1) ⟨gs⟩ = .ok (⟨gs⟩, e.toNat + 1) := by
        unfold read_tabledata
        cases hdrop : lines.drop (e.toNat + 1) with
        | nil => rfl
        | cons l rest =>
          rw [hdrop] at hblank
          simp only [readRowsGo, hblank]
          simp [pyStrip, hblank]
      have he0 : 0 ≤ e := le_trans hs0 hse
      have hcast : ((e.toNat + 1 : Nat) : Int) = e + 1 := by
        omega
      have hkey2 : pyStartsWith ml ['#', 'K', 'e', 'y'] = true := hkey
      simp [tableParser, hfh, h5, hml, hkey2, hgs, hrt, hcast, bind, Except.bind]
  · intro s e nm ml hfh h5 hml hkey
    have hkey2 : pyStartsWith ml ['#', 'K', 'e', 'y'] = false := hkey
    simp [tableParser, hfh, h5, hml, hkey2, bind, Except.bind]

/-! ## Claim C10 — ColumnSubgroup.__contains__ -/

/-- C10: the membership test on a ColumnSubgroup with an int key returns the
list of column numbers itself, so Python's in operator sees a truthy value
exactly when the subgroup has at least one column, whatever the int is; a
str key is tested against the column names; any other key yields False. -/
theorem claim_C10 (sg : ColumnSubgroup) (n m : Int) (s : List Char) :
    ((sg.containsKey (.int n)).truthy = true ↔ sg.columns ≠ []) ∧
    sg.containsKey (.int n) = .intList sg.column_numbers ∧
    sg.containsKey (.int n) = sg.containsKey (.int m) ∧
    sg.containsKey (.str s) = .bool (sg.column_names.contains s) ∧
    sg.containsKey .other = .bool false := by
  refine ⟨?_, rfl, rfl, rfl, rfl⟩
  simp only [ColumnSubgroup.containsKey, ContainsResult.truthy,
    ColumnSubgroup.column_numbers]
  cases sg.columns <;> simp

/-! ## ConfigFile (rlx2nix/config.py): line classification and
indentation-unit detection -/

/-- The two dialects of the configuration format. -/
inductive ConfigFormat where
  | old
  | new
deriving DecidableEq

/-- ConfigFile.empty_or_comment: blank after stripping, or first character
a hash (the or short-circuits, so an empty line never indexes). -/
def empty_or_comment (l : List Char) : Bool :=
  (pyStrip l).isEmpty || l.head? = some '#'

/-- ConfigFile.looks_like_property: old style, any line containing a colon;
new style, additionally the stripped line must split on colon-space into
more than one part, that is contain a colon-space. -/
def looks_like_property (l : List Char) (style : ConfigFormat) : Bool :=
  match style with
  | .old => l.contains ':'
  | .new => l.contains ':' && containsSub l [':', ' ']

/-- ConfigFile.looks_like_section. -/
def looks_like_section (l : List Char) (style : ConfigFormat) : Bool :=
  !empty_or_comment l && !looks_like_property l style

/-- The leading-space depths of the section lines, in file order. -/
def sectionIndents (lines : List (List Char)) (style : ConfigFormat) : List Nat :=
  (lines.filter (fun l => looks_like_section l style)).map leadingSpaces

/-- The sorted distinct section-line depths (the code collects a set and
sorts it). -/
def indentationsSorted (lines : List (List Char)) (style : ConfigFormat) : List Nat :=
  ((sectionIndents lines style).dedup).insertionSort (· ≤ ·)

/-- np.diff on a sorted list of depths: consecutive differences. -/
def diffsOf : List Nat → List Nat
  | a :: b :: rest => (b - a) :: diffsOf (b :: rest)
  | _ => []

/-- np.unique: the sorted distinct values. -/
def uniqueDiffs (ds : List Nat) : List Nat :=
  (ds.dedup).insertionSort (· ≤ ·)

/-- ConfigFile.guess_indentation (config.py lines 310-326): with more than
two distinct section depths, a non-constant run of consecutive differences
is fatal (ValueError), else the constant is the unit (the code returns the
one-element numpy array; its sole entry is modelled); with exactly two
depths, their difference; otherwise one. -/
def guess_indentation (lines : List (List Char)) (style : ConfigFormat) :
    Except PyErr Int :=
  let ind := indentationsSorted lines style
  if 2 < ind.length then
    let u := uniqueDiffs (diffsOf ind)
    if 1 < u.length then .error .valueError
    else .ok ((u.headD 1 : Int))
  else if ind.length = 2 then
    .ok ((ind.getLast?.getD 0 : Int) - (ind.head?.getD 0 : Int))
  else
    .ok 1

theorem dedup_length_le_one_iff (l : List Nat) :
    l.dedup.length ≤ 1 ↔ ∀ a ∈ l, ∀ b ∈ l, a = b := by
  induction l with
  | nil => simp
  | cons x xs ih =>
    by_cases hx : x ∈ xs
    · rw [List.dedup_cons_of_mem hx]
      rw [ih]
      constructor
      · intro h a ha b hb
        rcases List.mem_cons.mp ha with rfl | ha'
        · rcases List.mem_cons.mp hb with rfl | hb'
          · rfl
          · exact h a hx b hb'
        · rcases List.mem_cons.mp hb with rfl | hb'
          · exact h a ha' b hx
          · exact h a ha' b hb'
      · intro h a ha b hb
        exact h a (List.mem_cons_of_mem x ha) b (List.mem_cons_of_mem x hb)
    · rw [List.dedup_cons_of_not_mem hx]
      simp only [List.length_cons]
      constructor
      · intro h
        have hnil : xs.dedup = [] := List.eq_nil_of_length_eq_zero (by omega)
        have hxs : xs = [] := (List.dedup_eq_nil xs).mp hnil
        subst hxs
        intro a ha b hb
        simp at ha hb
        rw [ha, hb]
      · intro h
        by_cases hxs : xs = []
        · subst hxs; simp
        · obtain ⟨y, hy⟩ := List.exists_mem_of_ne_nil xs hxs
          exact absurd (h y (List.mem_cons_of_mem x hy) x (List.mem_cons_self x xs)).symm
            (fun e => hx (e ▸ hy))

theorem uniqueDiffs_length (ds : List Nat) :
    (uniqueDiffs ds).length = ds.dedup.length := by
  exact (List.perm_insertionSort (· ≤ ·) ds.dedup).length_eq

theorem diffsOf_length (l : List Nat) : (diffsOf l).length = l.length - 1 := by
  induction l with
  | nil => rfl
  | cons a rest ih =>
    cases rest with
    | nil => rfl
    | cons b rest2 =>
      simp only [diffsOf, List.length_cons]
      rw [ih]
      simp

/-- C8: guess_indentation over the distinct sorted section-line depths:
with more than two depths it fails exactly when the consecutive differences
are not one single constant; with exactly two depths it returns their
difference; with at most one depth it returns one. -/
theorem claim_C8 (lines : List (List Char)) (style : ConfigFormat) :
    (2 < (indentationsSorted lines style).length →
      (guess_indentation lines style = .error .valueError ↔
        ¬ ∃ c, ∀ d ∈ diffsOf (indentationsSorted lines style), d = c)) ∧
    (∀ a b, indentationsSorted lines style = [a, b] →
      guess_indentation lines style = .ok ((b : Int) - (a : Int))) ∧
    ((indentationsSorted lines style).length ≤ 1 →
      guess_indentation lines style = .ok 1) := by
  refine ⟨?_, ?_, ?_⟩
  · intro hlen
    set ind := indentationsSorted lines style with hind
    have hdne : diffsOf ind ≠ [] := by
      have := diffsOf_length ind
      intro hnil
      rw [hnil] at this
      simp at this
      omega
    have key : (uniqueDiffs (diffsOf ind)).length ≤ 1 ↔
        ∃ c, ∀ d ∈ diffsOf ind, d = c := by
      rw [uniqueDiffs_length, dedup_length_le_one_iff]
      constructor
      · intro h
        obtain ⟨d0, hd0⟩ := List.exists_mem_of_ne_nil _ hdne
        exact ⟨d0, fun d hd => h d hd d0 hd0⟩
      · rintro ⟨c, hc⟩ a ha b hb
        rw [hc a ha, hc b hb]
    constructor
    · intro herr
      intro hex
      have hle := key.mpr hex
      simp only [guess_indentation, ← hind, hlen, if_true] at herr
      have : ¬ 1 < (uniqueDiffs (diffsOf ind)).length := by omega
      simp [this] at herr
    · intro hnex
      have hgt : 1 < (uniqueDiffs (diffsOf ind)).length := by
        by_contra hle
        exact hnex (key.mp (by omega))
      simp [guess_indentation, ← hind, hlen, hgt]
  · intro a b hab
    have hlen2 : (indentationsSorted lines style).length = 2 := by rw [hab]; rfl
    simp [guess_indentation, hab, hlen2]
  · intro hle
    have h1 : ¬ 2 < (indentationsSorted lines style).length := by omega
    have h2 : (indentationsSorted lines style).length ≠ 2 := by omega
    simp [guess_indentation, h1, h2]

/-! ## Claim C9 — behavior on a missing file

The filesystem is modelled as an Option of the file's lines: none for a
path that does not exist.  ConfigFile.load checks existence first and
raises ValueError; it then detects the format and the indentation unit
(read_config_file's section-tree construction adds no further failure mode
relevant to the claims and its odml output is not modelled).
StimuliDat.__init__ (stimuli.py lines 546-556) checks existence, logs an
error and plainly returns, leaving the run list empty; only an existing
file is scanned. -/

/-- ConfigFile.guess_file_format: legacy when some non-comment, non-empty
line contains neither an asterisk nor a colon, else modern. -/
def guess_file_format (lines : List (List Char)) : ConfigFormat :=
  if lines.any (fun l => !empty_or_comment l && !l.contains '*' && !l.contains ':') then
    .old
  else
    .new

/-- What ConfigFile.load produces in the model: the detected format and
indentation unit. -/
inductive ConfigLoadResult where
  | loaded (format : ConfigFormat) (indent : Int)
deriving DecidableEq

/-- ConfigFile.load (config.py lines 396-402): a missing file raises
ValueError before anything is read; otherwise format and indentation are
detected (the latter can itself raise) and the file is read. -/
def ConfigFile.load (file : Option (List (List Char))) : Except PyErr ConfigLoadResult :=
  match file with
  | none => .error .valueError
  | some lines => do
    let fmt := guess_file_format lines
    let ind ← guess_indentation lines fmt
    .ok (.loaded fmt ind)

/-- The state of a StimuliDat object after __init__: either the missing-file
early return with the run list left empty, or a scanned file. -/
inductive StimuliDatState where
  | missingFile
  | scanned (lines : List (List Char))
deriving DecidableEq

/-- StimuliDat.__init__ (stimuli.py lines 546-556): a missing file is
logged and the constructor returns normally with no repro runs — it does
not raise; an existing file is scanned. -/
def StimuliDat.init (file : Option (List (List Char))) : Except PyErr StimuliDatState :=
  match file with
  | none => .ok .missingFile
  | some lines => .ok (.scanned lines)

/-- C9 counterexample: constructing the stimulus-log reader on a
nonexistent path does not raise — StimuliDat.__init__ logs and returns an
object with an empty run list, so this half of the claim is false. -/
theorem claim_C9_counterexample :
    StimuliDat.init none = .ok .missingFile ∧ (StimuliDat.init none).isOk = true := by
  exact ⟨rfl, rfl⟩

/-- C9 as amended: ConfigFile.load on a missing file raises ValueError and
aborts; StimuliDat.__init__ on a missing file does not raise but returns
normally with the run list left empty. -/
theorem claim_C9_amended :
    ConfigFile.load none = .error .valueError ∧
    StimuliDat.init none = .ok .missingFile := by
  exact ⟨rfl, rfl⟩

/-! ## Converter (rlx2nix/converter.py): repro_times and repro_runs

A ReproRun is embedded by the three fields the timeline code reads: the
name (None when the metadata had none), the validity flag, and the parsed
table.  The metadata tree is not consumed by any claim under study. -/

/-- The parsed state of one repro run. -/
structure ReproRun where
  name : Option (List Char)
  valid : Bool
  table : Table
deriving DecidableEq

/-- A run object used for out-of-range list defaults; the indices the code
uses are always in range, so it is never read. -/
def noRun : ReproRun := ⟨none, false, ⟨[]⟩⟩

/-- Python l[0]: IndexError on an empty list. -/
def headE {α : Type} : List α → Except PyErr α
  | [] => .error .indexError
  | a :: _ => .ok a

/-- Python l[-1]: IndexError on an empty list. -/
def lastE {α : Type} : List α → Except PyErr α
  | [] => .error .indexError
  | [a] => .ok a
  | _ :: b :: rest => lastE (b :: rest)

/-- A table-cell value times a float (index_col[i] * sampleinterval):
TypeError when the cell holds a string. -/
def pyValMulNum (v : PyVal) (q : PyNum) : Except PyErr PyNum :=
  match v with
  | .int n => .ok ((PyNum.ofInt n).mul q)
  | .float x => .ok (x.mul q)
  | .str _ => .error .typeError

/-- A table-cell value divided by 1000 (delay / 1000.): TypeError when the
cell holds a string. -/
def pyValDiv1000 (v : PyVal) : Except PyErr PyNum :=
  match v with
  | .int n => .ok ((PyNum.ofInt n).divN 1000 (by decide))
  | .float x => .ok (x.divN 1000 (by decide))
  | .str _ => .error .typeError

/-- The duration probe loop of repro_times (converter.py lines 497-504):
over the duration columns in order, take the last value of the first column
whose last value is an int, a float, or a string matching the only_number
regex; that value is divided by 1000 unconditionally.  A column with no
data raises IndexError at d[-1]; no match leaves the duration at zero. -/
def durationLoop : List Column → Except PyErr PyNum
  | [] => .ok (PyNum.ofInt 0)
  | d :: rest => do
    let dur ← lastE d.data
    match dur with
    | .int n => .ok ((PyNum.ofInt n).divN 1000 (by decide))
    | .float x => .ok (x.divN 1000 (by decide))
    | .str s =>
      if only_number s then
        (pyFloat s).map (fun x => x.divN 1000 (by decide))
      else
        durationLoop rest

/-- The keyword strings the timeline code matches on, as named constants
(kept folded so that rewriting with hypotheses about them is stable). -/
def kwStimulus : List Char := "stimulus".toList

def kwSignal : List Char := "signal".toList

def kwDelay : List Char := "delay".toList

def kwDuration : List Char := "duration".toList

def kwInit : List Char := "init".toList

def kwBaselineActivity : List Char := "BaselineActivity".toList

def kwBaselineLower : List Char := "baselineactivity".toList

/-- repro_times (converter.py lines 475-507).  A nameless or invalid run,
or one whose first column has no data, reports (None, None).  find_column
returning None makes len(index_col) raise TypeError.  The stimulus group is
looked up (KeyError if absent); the signal columns' first values decide
is_init (IndexError on an empty signal column); the delay is zero when
there is no delay column or is_init holds, else the first delay column's
first value; start is index_col[0] times the sample interval minus
delay/1000.  A run named BaselineActivity ends at its start; any other run
ends at index_col[-1] times the sample interval plus the probed duration. -/
def repro_times (rr : ReproRun) (si : PyNum) : Except PyErr (Option PyNum × Option PyNum) :=
  match rr.name with
  | none => .ok (none, none)
  | some nm =>
    if rr.valid = false then .ok (none, none)
    else
      match rr.table.find_column 1 with
      | none => .error .typeError
      | some index_col =>
        if index_col.data.length = 0 then .ok (none, none)
        else do
          let stimulus_grp ← rr.table.getGroup kwStimulus
          let signals := stimulus_grp.columns_by_name kwSignal
          let firsts ← signals.mapM (fun s => headE s.data)
          let is_init := firsts.any (fun v => v = PyVal.str kwInit)
          let delay_cols := stimulus_grp.columns_by_name kwDelay
          let delay ← if delay_cols.length = 0 || is_init then
              Except.ok (PyVal.float (PyNum.ofInt 0))
            else do
              let c ← headE delay_cols
              headE c.data
          let ic0 ← headE index_col.data
          let p1 ← pyValMulNum ic0 si
          let dd ← pyValDiv1000 delay
          let start_time := p1.sub dd
          let duration_cols := stimulus_grp.columns_by_name kwDuration
          if containsSub nm kwBaselineActivity then
            .ok (some start_time, some start_time)
          else do
            let duration ← durationLoop duration_cols
            let icl ← lastE index_col.data
            let pl ← pyValMulNum icl si
            .ok (some start_time, some (pl.add duration))

/-- The body of the repro_runs loop for one run (converter.py lines
517-549), up to the point where the run's (start, end) pair is appended:
ok none is the loop's continue (the run contributes no output entry).  A
valid run takes its times from repro_times and is skipped when the start is
None.  An invalid run whose lowercased name contains baselineactivity is
rescued: provisional start is 0 for the first run, else the previous run's
repro_times end; provisional end is the next run's repro_times start when a
next run exists; a missing bound drops the run; otherwise the interval is
shrunk by one second on each side and dropped when start is not below end.
An invalid run with any other name is dropped; an invalid nameless run
raises AttributeError at name.lower(). -/
def run_entry (runs : List ReproRun) (si : PyNum) (i : Nat) (rr : ReproRun) :
    Except PyErr (Option (PyNum × PyNum)) :=
  if rr.valid then do
    let se ← repro_times rr si
    match se with
    | (some sv, some ev) => .ok (some (sv, ev))
    | (none, _) => .ok none
    | (some _, none) => .error .typeError
  else
    match rr.name with
    | none => .error .attributeError
    | some nm =>
      if containsSub (pyLower nm) kwBaselineLower then do
        let st ← if i = 0 then Except.ok (some (PyNum.ofInt 0))
          else (repro_times (runs.getD (i - 1) noRun) si).map Prod.snd
        let en ← if i + 1 < runs.length then
            (repro_times (runs.getD (i + 1) noRun) si).map Prod.fst
          else Except.ok none
        match st, en with
        | some sv, some ev =>
          let sv := sv.add (PyNum.ofInt 1)
          let ev := ev.sub (PyNum.ofInt 1)
          if sv.blt ev then .ok (some (sv, ev)) else .ok none
        | _, _ => .ok none
      else .ok none

/-- The per-name occurrence counter (a Python dict keyed by the run name,
which may be None). -/
def bumpCounter (c : List (Option (List Char) × Nat)) (k : Option (List Char)) :
    List (Option (List Char) × Nat) :=
  if c.any (fun p => p.1 = k) then
    c.map (fun p => if p.1 = k then (p.1, p.2 + 1) else p)
  else
    (k, 1) :: c

/-- The current count for a name. -/
def counterVal (c : List (Option (List Char) × Nat)) (k : Option (List Char)) : Nat :=
  match c.find? (fun p => p.1 = k) with
  | some p => p.2
  | none => 0

/-- Decimal digits of a natural number (fuel-structural so that the kernel
evaluates it). -/
def natDigitsGo : Nat → Nat → List Char → List Char
  | 0, _, acc => acc
  | fuel + 1, n, acc =>
    if n = 0 then acc
    else natDigitsGo fuel (n / 10) (Char.ofNat ('0'.toNat + n % 10) :: acc)

/-- Python str of a natural number. -/
def natToChars (n : Nat) : List Char :=
  if n = 0 then ['0'] else natDigitsGo (n + 1) n []

/-- One output record of repro_runs: the tag name (name underscore count),
the start time and the duration. -/
structure RunOut where
  name : List Char
  start : PyNum
  duration : PyNum
deriving DecidableEq

/-- The collection loop of repro_runs: per run bump the counter, compute
the entry, and append (name_count, start, end, end - start) when the run
is kept.  Fuel is the number of runs left, keeping recursion structural. -/
def reproRunsGo (runs : List ReproRun) (si : PyNum) :
    Nat → Nat → List (Option (List Char) × Nat) →
    Except PyErr (List (List Char × PyNum × PyNum × PyNum))
  | 0, _, _ => .ok []
  | fuel + 1, i, counter =>
    match runs.get? i with
    | none => .ok []
    | some rr =>
      let counter' := bumpCounter counter rr.name
      do
        let ent ← run_entry runs si i rr
        match ent with
        | none => reproRunsGo runs si fuel (i + 1) counter'
        | some (s, e) => do
          let rest ← reproRunsGo runs si fuel (i + 1) counter'
          let nm := (rr.name.getD []) ++ '_' :: natToChars (counterVal counter' rr.name)
          .ok ((nm, s, e, e.sub s) :: rest)

/-- The first phase of repro_runs: the parallel name/start/end/duration
lists, as one list of quadruples. -/
def repro_runs_prepass (runs : List ReproRun) (si : PyNum) :
    Except PyErr (List (List Char × PyNum × PyNum × PyNum)) :=
  reproRunsGo runs si runs.length 0 []

/-- Default quadruple for in-range list reads. -/
def dfltQuad : List Char × PyNum × PyNum × PyNum :=
  ([], PyNum.ofInt 0, PyNum.ofInt 0, PyNum.ofInt 0)

/-- Default output record for in-range list reads. -/
def dfltRunOut : RunOut := ⟨[], PyNum.ofInt 0, PyNum.ofInt 0⟩

/-- The post-pass duration (converter.py lines 558-564): every run except
the last whose duration is below one sample interval has its duration
stretched to the next run's start minus its own. -/
def postPassDuration (si : PyNum) (quads : List (List Char × PyNum × PyNum × PyNum))
    (i : Nat) : PyNum :=
  let q := quads.getD i dfltQuad
  let d := q.2.2.2
  if d.blt si && i + 1 < quads.length then
    ((quads.getD (i + 1) dfltQuad).2.1).sub q.2.1
  else d

/-- The post-pass over the whole quadruple list. -/
def postPass (si : PyNum) (quads : List (List Char × PyNum × PyNum × PyNum)) :
    List RunOut :=
  (List.range quads.length).map fun i =>
    let q := quads.getD i dfltQuad
    ⟨q.1, q.2.1, postPassDuration si quads i⟩

/-- repro_runs of convert_repro_runs (converter.py lines 509-566): collect
the kept runs, then apply the gap-closing post-pass.  The function returns
names, start times and durations (the end list is dropped by the code, so a
run's end time is its start plus its duration). -/
def repro_runs (runs : List ReproRun) (si : PyNum) : Except PyErr (List RunOut) :=
  (repro_runs_prepass runs si).map (postPass si)

/-! ## Supporting lemmas for the timeline claims -/

theorem headE_eq {α : Type} (l : List α) :
    headE l = match l.head? with
      | some a => Except.ok a
      | none => Except.error PyErr.indexError := by
  cases l <;> rfl

theorem lastE_eq {α : Type} (l : List α) :
    lastE l = match l.getLast? with
      | some a => Except.ok a
      | none => Except.error PyErr.indexError := by
  induction l with
  | nil => rfl
  | cons a rest ih =>
    cases rest with
    | nil => rfl
    | cons b rest2 =>
      simp only [lastE, ih, List.getLast?_cons_cons]

theorem digit_not_pyspace {c : Char} (h : c.isDigit = true) : isPySpace c = false := by
  by_contra hsp
  simp only [Bool.not_eq_false] at hsp
  simp only [isPySpace, Bool.or_eq_true, decide_eq_true_eq] at hsp
  rcases hsp with ((((h1 | h1) | h1) | h1) | h1) | h1 <;> subst h1 <;> simp_all

theorem take_takeWhile {α : Type} (p : α → Bool) (b : List α) :
    b.take (b.takeWhile p).length = b.takeWhile p := by
  induction b with
  | nil => rfl
  | cons x xs ih =>
    by_cases hp : p x = true
    · simp [List.takeWhile_cons, hp, ih]
    · simp [List.takeWhile_cons, hp]

theorem mem_take_or_drop {α : Type} (b : List α) (k : Nat) (c : α) (hc : c ∈ b) :
    c ∈ b.take k ∨ c ∈ b.drop k := by
  rw [← List.take_append_drop k b] at hc
  exact List.mem_append.mp hc

theorem mem_takeWhile_digit {b : List Char} {c : Char}
    (hc : c ∈ b.takeWhile Char.isDigit) : c.isDigit = true := by
  induction b with
  | nil => simp [List.takeWhile] at hc
  | cons x xs ih =>
    rw [List.takeWhile_cons] at hc
    by_cases hp : x.isDigit = true
    · simp only [hp, if_true] at hc
      rcases List.mem_cons.mp hc with rfl | hc'
      · exact hp
      · exact ih hc'
    · simp [hp] at hc

/-- The shape a token matching the only_number regex has after the sign is
removed: a non-empty digit run, then nothing or a dot followed by a
non-empty digit run. -/
theorem only_number_shape {s : List Char} (h : only_number s = true) :
    (dropSign s).takeWhile Char.isDigit ≠ [] ∧
    ((dropSign s).drop ((dropSign s).takeWhile Char.isDigit).length = [] ∨
     (((dropSign s).drop ((dropSign s).takeWhile Char.isDigit).length).head? = some '.' ∧
      ((dropSign s).drop ((dropSign s).takeWhile Char.isDigit).length).drop 1 ≠ [] ∧
      (((dropSign s).drop ((dropSign s).takeWhile Char.isDigit).length).drop 1).all
        Char.isDigit = true)) := by
  simp only [only_number] at h
  by_cases hr :
      ((dropSign s).drop ((dropSign s).takeWhile Char.isDigit).length).isEmpty = true
  · rw [if_pos hr, decide_eq_true_eq] at h
    refine ⟨?_, Or.inl (List.isEmpty_iff.mp hr)⟩
    intro hdse
    rw [hdse] at h
    simp at h
  · rw [if_neg hr] at h
    simp only [Bool.and_eq_true, Bool.not_eq_true', decide_eq_true_eq] at h
    obtain ⟨⟨⟨hdot, hdse⟩, hfs⟩, hall⟩ := h
    refine ⟨?_, Or.inr ⟨hdot, ?_, hall⟩⟩
    · intro e
      rw [e] at hdse
      simp at hdse
    · intro e
      rw [e] at hfs
      simp at hfs

/-- Every character of a token matching the only_number regex is a sign, a
digit or a dot — in particular no whitespace. -/
theorem only_number_no_space {s : List Char} (h : only_number s = true) :
    ∀ c ∈ s, isPySpace c = false := by
  obtain ⟨hds, hrest⟩ := only_number_shape h
  have hb : ∀ d ∈ dropSign s, isPySpace d = false := by
    intro d hd
    have hsplit := mem_take_or_drop (dropSign s)
      ((dropSign s).takeWhile Char.isDigit).length d hd
    rw [take_takeWhile] at hsplit
    rcases hsplit with hdig | hr
    · exact digit_not_pyspace (mem_takeWhile_digit hdig)
    · rcases hrest with he | ⟨hdot, _, hall⟩
      · rw [he] at hr
        simp at hr
      · rcases hcons : (dropSign s).drop ((dropSign s).takeWhile Char.isDigit).length with
          _ | ⟨r0, rt⟩
        · rw [hcons] at hr; simp at hr
        · rw [hcons] at hr hdot hall
          simp only [List.head?_cons, Option.some.injEq] at hdot
          subst hdot
          rcases List.mem_cons.mp hr with rfl | htail
          · decide
          · simp only [List.drop_one, List.tail_cons, List.all_eq_true] at hall
            exact digit_not_pyspace (hall d htail)
  intro c hc
  cases s with
  | nil => simp at hc
  | cons c0 srest =>
    by_cases hsign : (c0 = '+' || c0 = '-') = true
    · have hbd : dropSign (c0 :: srest) = srest := by
        simp [dropSign, hsign]
      rcases List.mem_cons.mp hc with rfl | hc'
      · rcases Bool.or_eq_true _ _ |>.mp hsign with h1 | h1
        · rw [decide_eq_true_eq.mp h1]; decide
        · rw [decide_eq_true_eq.mp h1]; decide
      · exact hb c (by rw [hbd]; exact hc')
    · have hbd : dropSign (c0 :: srest) = c0 :: srest := by
        simp only [dropSign]
        simp [hsign]
      exact hb c (by rw [hbd]; exact hc)

theorem pyStrip_of_no_space {l : List Char} (h : ∀ c ∈ l, isPySpace c = false) :
    pyStrip l = l := by
  unfold pyStrip
  have h1 : l.dropWhile isPySpace = l := by
    cases l with
    | nil => rfl
    | cons c rest =>
      rw [List.dropWhile_cons, h c (List.mem_cons_self c rest)]
      simp
  rw [h1]
  have h2 : l.reverse.dropWhile isPySpace = l.reverse := by
    cases hr : l.reverse with
    | nil => rfl
    | cons c rest =>
      have hc : c ∈ l := by
        rw [← List.mem_reverse, hr]
        exact List.mem_cons_self c rest
      rw [List.dropWhile_cons, h c hc]
      simp
  rw [h2, List.reverse_reverse]

/-- A token matching the only_number regex always converts with Python
float: the loop in repro_times cannot raise on such a string. -/
theorem only_number_pyFloat {s : List Char} (h : only_number s = true) :
    ∃ x, pyFloat s = .ok x := by
  have hns := only_number_no_space h
  have hstrip : pyStrip s = s := pyStrip_of_no_space hns
  obtain ⟨hds, hrest⟩ := only_number_shape h
  have hdse : ((dropSign s).takeWhile Char.isDigit).isEmpty = false := by
    cases hd : (dropSign s).takeWhile Char.isDigit with
    | nil => exact absurd hd hds
    | cons a l => rfl
  have hsne : s.isEmpty = false := by
    cases hs : s with
    | nil =>
      rw [hs] at hds
      simp [dropSign, List.takeWhile] at hds
    | cons a l => rfl
  simp only [pyFloat, hstrip]
  rcases hrest with he | ⟨hdot, hfs, hall⟩
  · have hre : ((dropSign s).drop ((dropSign s).takeWhile Char.isDigit).length).isEmpty
        = true := by rw [he]; rfl
    rw [if_pos]
    · exact ⟨_, rfl⟩
    · simp [hsne, hre, hdse]
  · have hre : ((dropSign s).drop ((dropSign s).takeWhile Char.isDigit).length).isEmpty
        = false := by
      cases hr : (dropSign s).drop ((dropSign s).takeWhile Char.isDigit).length with
      | nil => rw [hr] at hdot; simp at hdot
      | cons a l => rfl
    rw [if_pos]
    · exact ⟨_, rfl⟩
    · have hall' := hall
      rw [List.drop_drop] at hall'
      simp [hsne, hre, hdse, hdot]
      intro x hx
      exact List.all_eq_true.mp hall' x hx

/-- The first numeric-or-numeric-string last value among the duration
columns, stated the way the claim reads: an int or float last value, or a
string last value matching the only_number regex, the first column in group
order winning. -/
def numericValueOf : PyVal → Option PyNum
  | .int n => some (PyNum.ofInt n)
  | .float x => some x
  | .str s => if only_number s then (pyFloat s).toOption else none

/-- The probed duration value of the claim: the first duration column whose
last value is numeric or a numeric string contributes that value. -/
def firstDurationValue (cols : List Column) : Option PyNum :=
  cols.findSome? (fun c => c.data.getLast?.bind numericValueOf)

/-- The duration loop of repro_times computes the probed value divided by
1000 — unconditionally, whatever each column's declared unit — and zero
when no column matches; columns with data cannot make it raise. -/
theorem durationLoop_toRat (cols : List Column)
    (hne : ∀ c ∈ cols, c.data ≠ []) :
    ∃ q, durationLoop cols = .ok q ∧
      q.toRat = ((firstDurationValue cols).elim 0 PyNum.toRat) / 1000 := by
  induction cols with
  | nil =>
    refine ⟨PyNum.ofInt 0, rfl, ?_⟩
    simp [firstDurationValue, PyNum.toRat_ofInt]
  | cons c rest ih =>
    have hcne := hne c (List.mem_cons_self c rest)
    obtain ⟨v, hv⟩ : ∃ v, c.data.getLast? = some v := by
      cases hl : c.data.getLast? with
      | some v => exact ⟨v, rfl⟩
      | none =>
        rw [List.getLast?_eq_none_iff] at hl
        exact absurd hl hcne
    cases v with
    | int n =>
      refine ⟨(PyNum.ofInt n).divN 1000 (by decide), ?_, ?_⟩
      · simp [durationLoop, lastE_eq, hv, bind, Except.bind]
      · rw [PyNum.toRat_divN, PyNum.toRat_ofInt]
        simp [firstDurationValue, List.findSome?_cons, hv, numericValueOf,
          PyNum.toRat_ofInt]
    | float x =>
      refine ⟨x.divN 1000 (by decide), ?_, ?_⟩
      · simp [durationLoop, lastE_eq, hv, bind, Except.bind]
      · rw [PyNum.toRat_divN]
        simp [firstDurationValue, List.findSome?_cons, hv, numericValueOf]
    | str s =>
      by_cases ho : only_number s = true
      · obtain ⟨x, hx⟩ := only_number_pyFloat ho
        refine ⟨x.divN 1000 (by decide), ?_, ?_⟩
        · simp [durationLoop, lastE_eq, hv, bind, Except.bind, ho, hx, Except.map]
        · rw [PyNum.toRat_divN]
          simp [firstDurationValue, List.findSome?_cons, hv, numericValueOf, ho, hx,
            Except.toOption]
      · obtain ⟨q, hq, hqr⟩ := ih (fun c' hc' => hne c' (List.mem_cons_of_mem c hc'))
        refine ⟨q, ?_, ?_⟩
        · simp [durationLoop, lastE_eq, hv, bind, Except.bind, ho, hq]
        · rw [hqr]
          simp [firstDurationValue, List.findSome?_cons, hv, numericValueOf, ho]

/-! ## Claim C3 — duration selection and the by-1000 division -/

/-- A valid run whose single duration column is declared in seconds (unit
s, not ms), with last value 2.0, index column value 0. -/
def secUnitRun : ReproRun :=
  ⟨some "SAM".toList, true,
   ⟨[⟨"stimulus".toList,
      [⟨"sg".toList,
        [⟨"index".toList, 1, [], [.float (pnum 0 1)]⟩,
         ⟨"duration".toList, 2, "s".toList, [.float (pnum 2 1)]⟩]⟩]⟩]⟩⟩

/-- C3 counterexample.  The claim says the probed duration value is divided
by 1000 if and only if the column's declared unit is ms, a duration in
other units being used unchanged.  On secUnitRun the unit is s and the
value 2.0, so the claim demands a duration of 2 seconds; repro_times
divides by 1000 regardless and produces 2/1000 (the end time is start +
1/500, not start + 2). -/
theorem claim_C3_counterexample :
    repro_times secUnitRun (pnum 1 1000) =
      .ok (some (pnum 0 1000000), some (pnum 2000 1000000)) ∧
    ((pnum 2000 1000000).sub (pnum 0 1000000)).beq
      ((pnum 2 1).divN 1000 (by decide)) = true ∧
    ((pnum 2000 1000000).sub (pnum 0 1000000)).beq (pnum 2 1) = false := by
  refine ⟨by decide, by decide, by decide⟩

/-- C3 as amended: for a valid, named, non-baseline run with a non-empty
numeric index column, a stimulus group, no signal and no delay columns, and
duration columns all holding data, repro_times starts the run at the first
index value times the sample interval and ends it at the last index value
times the sample interval plus the probed duration value divided by 1000 —
the division is unconditional; no hypothesis and no part of the result
depends on any duration column's declared type_or_unit. -/
theorem claim_C3_amended (rr : ReproRun) (si : PyNum) (nm : List Char) (g : ColumnGroup)
    (ic : Column) (v0 vl : PyNum)
    (h1 : rr.name = some nm)
    (h2 : rr.valid = true)
    (h3 : containsSub nm kwBaselineActivity = false)
    (h4 : rr.table.find_column 1 = some ic)
    (h6 : rr.table.getGroup kwStimulus = .ok g)
    (h7 : g.columns_by_name kwSignal = [])
    (h8 : g.columns_by_name kwDelay = [])
    (h9 : ic.data.head? = some (.float v0))
    (h10 : ic.data.getLast? = some (.float vl))
    (hne : ∀ c ∈ g.columns_by_name kwDuration, c.data ≠ []) :
    ∃ st en, repro_times rr si = .ok (some st, some en) ∧
      st.toRat = v0.toRat * si.toRat ∧
      en.toRat = vl.toRat * si.toRat +
        ((firstDurationValue (g.columns_by_name kwDuration)).elim 0 PyNum.toRat)
          / 1000 := by
  obtain ⟨q, hq, hqr⟩ := durationLoop_toRat _ hne
  have hlen : ic.data.length = 0 ↔ False := by
    cases hd : ic.data with
    | nil => rw [hd] at h9; simp at h9
    | cons a l => simp
  have hsig : (List.mapM (fun s => headE s.data) ([] : List Column) :
      Except PyErr (List PyVal)) = .ok [] := rfl
  refine ⟨(v0.mul si).sub ((PyNum.ofInt 0).divN 1000 (by decide)),
          (vl.mul si).add q, ?_, ?_, ?_⟩
  · simp [repro_times, h1, h2, h4, h6, h7, h8, hq, hsig, hlen, headE_eq, lastE_eq,
      h9, h10, h3, bind, Except.bind, pyValMulNum, pyValDiv1000, List.mapM,
      List.mapM.loop, pure, Except.pure]
  · rw [PyNum.toRat_sub, PyNum.toRat_mul, PyNum.toRat_divN, PyNum.toRat_ofInt]
    norm_num
  · rw [PyNum.toRat_add, PyNum.toRat_mul, hqr]

/-- C3 witness: the amended theorem applied to secUnitRun with sample
interval 1/1000. -/
theorem claim_C3_witness :
    ∃ st en, repro_times secUnitRun (pnum 1 1000) = .ok (some st, some en) ∧
      st.toRat = (pnum 0 1).toRat * (pnum 1 1000).toRat ∧
      en.toRat = (pnum 0 1).toRat * (pnum 1 1000).toRat +
        ((firstDurationValue
          ((⟨"stimulus".toList,
            [⟨"sg".toList,
              [⟨"index".toList, 1, [], [.float (pnum 0 1)]⟩,
               ⟨"duration".toList, 2, "s".toList, [.float (pnum 2 1)]⟩]⟩]⟩ :
            ColumnGroup).columns_by_name kwDuration)).elim 0 PyNum.toRat)
          / 1000 :=
  claim_C3_amended secUnitRun (pnum 1 1000) "SAM".toList _ _ (pnum 0 1) (pnum 0 1)
    rfl rfl (by decide) rfl rfl (by decide) (by decide) rfl rfl (by decide)

/-! ## Claim C4 — the baseline rescue heuristic -/

/-- The rescue computation as the claim words it: provisional start is the
previous run's end (zero for the first run) and provisional end the next
run's start; a missing bound drops the run (none); otherwise the interval
is shrunk by one on each side and the run is dropped when the shrunk
interval is non-positive (start not strictly below end, PyNum.blt being
the strict order by PyNum.blt_iff), else kept with the rescued bounds. -/
def rescue_spec (prevEnd nextStart : Option PyNum) : Option (PyNum × PyNum) :=
  match prevEnd, nextStart with
  | some s, some e =>
    let s' := s.add (PyNum.ofInt 1)
    let e' := e.sub (PyNum.ofInt 1)
    if s'.blt e' then some (s', e') else none
  | _, _ => none

/-- C4: for an invalid run whose name contains the baseline marker
(case-insensitively), given that probing the previous run's end (0 when
first) and the next run's start (none when last) returned without raising,
the loop body keeps or drops the run exactly as rescue_spec describes:
neighbor bounds shrunk by the one-second guard band, dropped on a missing
bound or a non-positive shrunk interval. -/
theorem claim_C4 (runs : List ReproRun) (si : PyNum) (i : Nat) (rr : ReproRun)
    (nm : List Char) (prevEnd nextStart : Option PyNum)
    (hv : rr.valid = false)
    (hn : rr.name = some nm)
    (hb : containsSub (pyLower nm) kwBaselineLower = true)
    (hst : (if i = 0 then Except.ok (some (PyNum.ofInt 0))
            else (repro_times (runs.getD (i - 1) noRun) si).map Prod.snd) = .ok prevEnd)
    (hen : (if i + 1 < runs.length then
              (repro_times (runs.getD (i + 1) noRun) si).map Prod.fst
            else Except.ok none) = .ok nextStart) :
    run_entry runs si i rr = .ok (rescue_spec prevEnd nextStart) := by
  simp only [run_entry, hv, hn, hb, Bool.false_eq_true, if_false, if_true]
  by_cases h0 : i = 0
  · rw [if_pos h0] at hst
    rw [if_pos h0]
    simp only [Except.ok.injEq] at hst
    subst hst
    by_cases h1 : i + 1 < runs.length
    · rw [if_pos h1] at hen
      simp only [bind, Except.bind, h1, if_true]
      rw [hen]
      cases nextStart with
      | none => simp [rescue_spec]
      | some ev =>
        simp only [rescue_spec]
        split <;> rfl
    · rw [if_neg h1] at hen
      simp only [Except.ok.injEq] at hen
      subst hen
      simp [bind, Except.bind, h1, rescue_spec]
  · rw [if_neg h0] at hst
    rw [if_neg h0]
    by_cases h1 : i + 1 < runs.length
    · rw [if_pos h1] at hen
      simp only [bind, Except.bind, h1, if_true]
      rw [hst, hen]
      cases prevEnd with
      | none => cases nextStart <;> simp [rescue_spec]
      | some sv =>
        cases nextStart with
        | none => simp [rescue_spec]
        | some ev =>
          simp only [rescue_spec]
          split <;> rfl
    · rw [if_neg h1] at hen
      simp only [Except.ok.injEq] at hen
      subst hen
      simp only [bind, Except.bind, h1, if_false]
      rw [hst]
      cases prevEnd <;> simp [rescue_spec]

/-- The three runs of the C4 witness: a valid run ending at 10 s, the
invalid baseline run, a valid run starting at 15 s (sample interval 1 s,
index values 0 and 10, then 15). -/
def wRunA : ReproRun :=
  ⟨some "SAM".toList, true,
   ⟨[⟨kwStimulus,
      [⟨"sg".toList,
        [⟨"index".toList, 1, [], [.float (pnum 0 1), .float (pnum 10 1)]⟩]⟩]⟩]⟩⟩

/-- The invalid baseline-activity run of the C4 witness. -/
def wRunB : ReproRun := ⟨some kwBaselineActivity, false, ⟨[]⟩⟩

/-- The following valid run of the C4 witness. -/
def wRunC : ReproRun :=
  ⟨some "SAM".toList, true,
   ⟨[⟨kwStimulus,
      [⟨"sg".toList,
        [⟨"index".toList, 1, [], [.float (pnum 15 1)]⟩]⟩]⟩]⟩⟩

/-- C4 witness: the rescue on the concrete scenario of the spec (previous
end 10, next start 15) keeps the run with bounds (11, 14). -/
theorem claim_C4_witness :
    run_entry [wRunA, wRunB, wRunC] (PyNum.ofInt 1) 1 wRunB =
      .ok (rescue_spec (some (pnum 10 1)) (some (pnum 15000 1000))) ∧
    rescue_spec (some (pnum 10 1)) (some (pnum 15000 1000)) =
      some (pnum 11 1, pnum 14000 1000) := by
  refine ⟨claim_C4 [wRunA, wRunB, wRunC] (PyNum.ofInt 1) 1 wRunB
    kwBaselineActivity (some (pnum 10 1)) (some (pnum 15000 1000))
    rfl rfl (by decide) (by decide) (by decide), by decide⟩

/-! ## Claim C5 — timeline monotonicity after the gap-closing post-pass -/

/-- Two valid runs that overlap: the first occupies the samples up to 1 s
and lasts 1.01 s, the second starts at 0.5 s (sample interval 1 ms). -/
def ovRunA : ReproRun :=
  ⟨some "SAM".toList, true,
   ⟨[⟨kwStimulus,
      [⟨"sg".toList,
        [⟨"index".toList, 1, [], [.float (pnum 0 1), .float (pnum 1000 1)]⟩,
         ⟨kwDuration, 2, "ms".toList, [.float (pnum 10 1)]⟩]⟩]⟩]⟩⟩

/-- The overlapping second run. -/
def ovRunB : ReproRun :=
  ⟨some "SAM".toList, true,
   ⟨[⟨kwStimulus,
      [⟨"sg".toList,
        [⟨"index".toList, 1, [], [.float (pnum 500 1)]⟩,
         ⟨kwDuration, 2, "ms".toList, [.float (pnum 1000 1)]⟩]⟩]⟩]⟩⟩

/-- C5 counterexample.  The claim asserts end-before-start monotonicity for
every consecutive pair of the final output.  On ovRunA/ovRunB the first
run's duration (1.01 s) is not shorter than the sample interval, so the
post-pass leaves it alone, and its end time 1.01 s exceeds the second
run's start time 0.5 s: the second start is strictly below the first
run's start plus duration. -/
theorem claim_C5_counterexample :
    repro_runs [ovRunA, ovRunB] (pnum 1 1000) =
      .ok [⟨"SAM_1".toList, pnum 0 1000000, pnum 1010000000000 1000000000000⟩,
           ⟨"SAM_2".toList, pnum 500000 1000000, pnum 1000000000000 1000000000000⟩] ∧
    (pnum 500000 1000000).blt
      ((pnum 0 1000000).add (pnum 1010000000000 1000000000000)) = true := by
  refine ⟨by decide, by decide⟩

theorem postPass_length (si : PyNum) (quads : List (List Char × PyNum × PyNum × PyNum)) :
    (postPass si quads).length = quads.length := by
  simp [postPass]

theorem postPass_getD (si : PyNum) (quads : List (List Char × PyNum × PyNum × PyNum))
    (i : Nat) (hi : i < quads.length) :
    (postPass si quads).getD i dfltRunOut =
      ⟨(quads.getD i dfltQuad).1, (quads.getD i dfltQuad).2.1,
        postPassDuration si quads i⟩ := by
  have hlen : i < (postPass si quads).length := by
    rw [postPass_length]
    exact hi
  rw [List.getD_eq_getElem?_getD, List.getElem?_eq_getElem hlen, Option.getD_some]
  simp only [postPass, List.getElem_map, List.getElem_range]

/-- C5 as amended: after the post-pass, a consecutive pair r[i], r[i+1] of
the output satisfies r[i].end_time ≤ r[i+1].start_time whenever r[i]'s
final duration is shorter than one sample interval (in that case the
post-pass has stretched r[i] exactly onto r[i+1]'s start, or the pair is
the last and nothing is claimed); for a pair whose first run's duration is
at least one sample interval the post-pass does not run and the runs may
overlap, as claim_C5_counterexample shows. -/
theorem claim_C5_amended (runs : List ReproRun) (si : PyNum) (out : List RunOut) (i : Nat)
    (h : repro_runs runs si = .ok out)
    (hi : i + 1 < out.length)
    (hd : (out.getD i dfltRunOut).duration.toRat < si.toRat) :
    (out.getD i dfltRunOut).start.toRat + (out.getD i dfltRunOut).duration.toRat ≤
      (out.getD (i + 1) dfltRunOut).start.toRat := by
  unfold repro_runs at h
  cases hq : repro_runs_prepass runs si with
  | error e => rw [hq] at h; simp [Except.map] at h
  | ok quads =>
    rw [hq] at h
    simp only [Except.map, Except.ok.injEq] at h
    subst h
    have hlen : i + 1 < quads.length := by
      rw [postPass_length] at hi
      exact hi
    have hil : i < quads.length := by omega
    rw [postPass_getD si quads i hil, postPass_getD si quads (i + 1) hlen] at *
    simp only at hd ⊢
    unfold postPassDuration at hd ⊢
    by_cases hcond : ((quads.getD i dfltQuad).2.2.2.blt si && decide (i + 1 < quads.length)) = true
    · rw [if_pos hcond] at hd ⊢
      rw [PyNum.toRat_sub]
      have : postPassDuration si quads (i + 1) = postPassDuration si quads (i + 1) := rfl
      linarith [le_refl ((quads.getD (i + 1) dfltQuad).2.1.toRat)]
    · rw [if_neg hcond] at hd ⊢
      exfalso
      have hblt : (quads.getD i dfltQuad).2.2.2.blt si = true := by
        rw [PyNum.blt_iff]
        exact hd
      rw [hblt] at hcond
      simp [hlen] at hcond

/-- The short first run of the C5 witness: zero duration, stretched by the
post-pass onto the next run's start. -/
def shortRunA : ReproRun :=
  ⟨some "SAM".toList, true,
   ⟨[⟨kwStimulus,
      [⟨"sg".toList,
        [⟨"index".toList, 1, [], [.float (pnum 0 1)]⟩,
         ⟨kwDuration, 2, "ms".toList, [.float (pnum 0 1)]⟩]⟩]⟩]⟩⟩

/-- The close-following second run of the C5 witness. -/
def shortRunB : ReproRun :=
  ⟨some "SAM".toList, true,
   ⟨[⟨kwStimulus,
      [⟨"sg".toList,
        [⟨"index".toList, 1, [], [.float (pnum 1 5)]⟩,
         ⟨kwDuration, 2, "ms".toList, [.float (pnum 1000 1)]⟩]⟩]⟩]⟩⟩

/-- C5 witness: on the concrete pair the first output run's stretched
duration (1/5000 s) is below the 1/1000 s sample interval and its end
meets the second run's start. -/
theorem claim_C5_witness :
    (([⟨"SAM_1".toList, pnum 0 1000000, pnum 1000000000 5000000000000⟩,
       ⟨"SAM_2".toList, pnum 1000 5000000, pnum 25000000000000 25000000000000⟩] :
        List RunOut).getD 0 dfltRunOut).start.toRat +
      (([⟨"SAM_1".toList, pnum 0 1000000, pnum 1000000000 5000000000000⟩,
         ⟨"SAM_2".toList, pnum 1000 5000000, pnum 25000000000000 25000000000000⟩] :
          List RunOut).getD 0 dfltRunOut).duration.toRat ≤
      (([⟨"SAM_1".toList, pnum 0 1000000, pnum 1000000000 5000000000000⟩,
         ⟨"SAM_2".toList, pnum 1000 5000000, pnum 25000000000000 25000000000000⟩] :
          List RunOut).getD 1 dfltRunOut).start.toRat :=
  claim_C5_amended [shortRunA, shortRunB] (pnum 1 1000) _ 0 (by decide) (by decide)
    (PyNum.blt_iff.mp (by decide))

/-! ## Claim C7 — round-trip value parsing (spec section 8, property 1)

The ValueParser under test is the spec-modelled parse_value above (its
implementation, util.parse_value, is not among the repository's files;
ConfigFile.parse_value in config.py is a different, unit-less splitter). -/

/-- A character that can appear in a known unit string: not a digit, dot,
sign or whitespace, so that unit text can never overlap numeric text. -/
def unitChar (c : Char) : Bool :=
  !(c.isDigit || c = '.' || c = '+' || c = '-' || isPySpace c)

theorem integer_chars {t : List Char} (h : integer_number t = true) :
    ∀ c ∈ dropSign t, c.isDigit = true := by
  simp only [integer_number, Bool.and_eq_true, List.all_eq_true] at h
  exact h.2

/-- The shape of a decimal-pattern token after the sign: a non-empty digit
run, then nothing or a dot followed by digits. -/
theorem decimalPat_shape {t : List Char} (h : decimalPat t = true) :
    (dropSign t).takeWhile Char.isDigit ≠ [] ∧
    ((dropSign t).drop ((dropSign t).takeWhile Char.isDigit).length = [] ∨
     (((dropSign t).drop ((dropSign t).takeWhile Char.isDigit).length).head? = some '.' ∧
      (((dropSign t).drop ((dropSign t).takeWhile Char.isDigit).length).drop 1).all
        Char.isDigit = true)) := by
  simp only [decimalPat, Bool.and_eq_true, Bool.or_eq_true, List.isEmpty_iff,
    Bool.not_eq_true', List.isEmpty_eq_false, decide_eq_true_eq] at h
  obtain ⟨hds, hrest⟩ := h
  refine ⟨hds, ?_⟩
  rcases hrest with he | ⟨hdot, hall⟩
  · exact Or.inl he
  · exact Or.inr ⟨hdot, hall⟩

theorem numericPat_chars {s : List Char} (h : numericPat s = true) :
    ∀ c ∈ dropSign s, (c.isDigit || c = '.') = true := by
  intro c hc
  rcases Bool.or_eq_true _ _ |>.mp h with hi | hd
  · simp [integer_chars hi c hc]
  · obtain ⟨hds, hrest⟩ := decimalPat_shape hd
    have hsplit := mem_take_or_drop (dropSign s)
      ((dropSign s).takeWhile Char.isDigit).length c hc
    rw [take_takeWhile] at hsplit
    rcases hsplit with hdig | hr
    · simp [mem_takeWhile_digit hdig]
    · rcases hrest with he | ⟨hdot, hall⟩
      · rw [he] at hr; simp at hr
      · rcases hcons : (dropSign s).drop ((dropSign s).takeWhile Char.isDigit).length with
          _ | ⟨r0, rt⟩
        · rw [hcons] at hr; simp at hr
        · rw [hcons] at hr hdot hall
          simp only [List.head?_cons, Option.some.injEq] at hdot
          subst hdot
          rcases List.mem_cons.mp hr with rfl | htail
          · simp
          · simp only [List.drop_one, List.tail_cons, List.all_eq_true] at hall
            simp [hall c htail]

theorem numericPat_not_unitChar {s : List Char} (h : numericPat s = true) :
    ∀ c ∈ s, unitChar c = false := by
  intro c hc
  cases s with
  | nil => simp at hc
  | cons c0 srest =>
    by_cases hsign : (c0 = '+' || c0 = '-') = true
    · have hbd : dropSign (c0 :: srest) = srest := by simp [dropSign, hsign]
      rcases List.mem_cons.mp hc with rfl | hc'
      · rcases Bool.or_eq_true _ _ |>.mp hsign with h1 | h1
        · rw [decide_eq_true_eq.mp h1]; decide
        · rw [decide_eq_true_eq.mp h1]; decide
      · have := numericPat_chars h c (by rw [hbd]; exact hc')
        simp only [unitChar]
        rcases Bool.or_eq_true _ _ |>.mp this with h2 | h2 <;> simp [h2]
    · have hbd : dropSign (c0 :: srest) = c0 :: srest := by
        simp only [dropSign]; simp [hsign]
      have := numericPat_chars h c (by rw [hbd]; exact hc)
      simp only [unitChar]
      rcases Bool.or_eq_true _ _ |>.mp this with h2 | h2 <;> simp [h2]

theorem numericPat_no_space {s : List Char} (h : numericPat s = true) :
    ∀ c ∈ s, isPySpace c = false := by
  intro c hc
  cases s with
  | nil => simp at hc
  | cons c0 srest =>
    by_cases hsign : (c0 = '+' || c0 = '-') = true
    · have hbd : dropSign (c0 :: srest) = srest := by simp [dropSign, hsign]
      rcases List.mem_cons.mp hc with rfl | hc'
      · rcases Bool.or_eq_true _ _ |>.mp hsign with h1 | h1
        · rw [decide_eq_true_eq.mp h1]; decide
        · rw [decide_eq_true_eq.mp h1]; decide
      · have := numericPat_chars h c (by rw [hbd]; exact hc')
        rcases Bool.or_eq_true _ _ |>.mp this with h2 | h2
        · exact digit_not_pyspace h2
        · rw [decide_eq_true_eq.mp h2]; decide
    · have hbd : dropSign (c0 :: srest) = c0 :: srest := by
        simp only [dropSign]; simp [hsign]
      have := numericPat_chars h c (by rw [hbd]; exact hc)
      rcases Bool.or_eq_true _ _ |>.mp this with h2 | h2
      · exact digit_not_pyspace h2
      · rw [decide_eq_true_eq.mp h2]; decide

theorem numericPat_ne_nil {s : List Char} (h : numericPat s = true) : s ≠ [] := by
  intro e
  subst e
  simp [numericPat, integer_number, decimalPat, dropSign, List.takeWhile] at h

theorem mem_dropSign_append {s u : List Char} (hs : s ≠ []) {c : Char} (hc : c ∈ u) :
    c ∈ dropSign (s ++ u) := by
  cases s with
  | nil => exact absurd rfl hs
  | cons c0 srest =>
    simp only [List.cons_append, dropSign]
    by_cases hsign : (c0 = '+' || c0 = '-') = true
    · simp only [hsign, if_true]
      exact List.mem_append.mpr (Or.inr hc)
    · simp only [hsign, Bool.false_eq_true, if_false]
      exact List.mem_cons_of_mem c0 (List.mem_append.mpr (Or.inr hc))

/-- Appending a unit to a numeric token breaks both numeric patterns: the
unit's characters cannot occur in numeric text. -/
theorem numericPat_append_false {s u : List Char}
    (hs : numericPat s = true) (hune : u ≠ [])
    (hug : ∀ c ∈ u, unitChar c = true) :
    integer_number (s ++ u) = false ∧ decimalPat (s ++ u) = false := by
  obtain ⟨c0, u', rfl⟩ : ∃ c0 u', u = c0 :: u' := by
    cases u with
    | nil => exact absurd rfl hune
    | cons a l => exact ⟨a, l, rfl⟩
  have hc0 : c0 ∈ c0 :: u' := List.mem_cons_self c0 u'
  have hcu := hug c0 hc0
  have hmem : c0 ∈ dropSign (s ++ c0 :: u') :=
    mem_dropSign_append (numericPat_ne_nil hs) hc0
  constructor
  · cases hint : integer_number (s ++ c0 :: u') with
    | false => rfl
    | true =>
      have := integer_chars hint c0 hmem
      simp [unitChar, this] at hcu
  · cases hdec : decimalPat (s ++ c0 :: u') with
    | false => rfl
    | true =>
      have := numericPat_chars (by simp [numericPat, hdec]) c0 hmem
      rcases Bool.or_eq_true _ _ |>.mp this with h2 | h2 <;>
        simp [unitChar, h2] at hcu

/-- A suffix of numeric-text-plus-unit made of unit characters is a suffix
of the unit alone: it cannot reach back into the numeric text. -/
theorem unit_suffix_of_suffix_append {s u w : List Char}
    (hs : numericPat s = true)
    (hw : ∀ c ∈ w, unitChar c = true) (hwne : w ≠ [])
    (hsuf : w <:+ s ++ u) : w <:+ u := by
  by_cases hlen : w.length ≤ u.length
  · have hdrop := List.suffix_iff_eq_drop.mp hsuf
    rw [List.length_append] at hdrop
    have harith : s.length + u.length - w.length = s.length + (u.length - w.length) := by
      omega
    rw [harith, List.drop_append] at hdrop
    rw [List.suffix_iff_eq_drop]
    exact hdrop
  · exfalso
    obtain ⟨p, hp⟩ := hsuf
    have hplen : p.length < s.length := by
      have := congrArg List.length hp
      simp only [List.length_append] at this
      omega
    obtain ⟨w0, w', rfl⟩ : ∃ w0 w', w = w0 :: w' := by
      cases w with
      | nil => exact absurd rfl hwne
      | cons a l => exact ⟨a, l, rfl⟩
    have hw0 : s.get? p.length = some w0 := by
      have h1 : (p ++ w0 :: w').get? p.length = some w0 := by
        rw [List.get?_eq_getElem?, List.getElem?_append_right (le_refl p.length)]
        simp
      rw [hp] at h1
      rw [List.get?_eq_getElem?] at h1 ⊢
      rw [List.getElem?_append_left hplen] at h1
      exact h1
    have hmem : w0 ∈ s := List.get?_mem hw0
    have := numericPat_not_unitChar hs w0 hmem
    have := hw w0 (List.mem_cons_self w0 w')
    simp_all

theorem dropSuffixN_append (s u : List Char) :
    dropSuffixN (s ++ u) u.length = s := by
  unfold dropSuffixN
  rw [List.length_append]
  have : s.length + u.length - u.length = s.length := by omega
  rw [this]
  exact List.take_left s u

/-- With a longest-first table of non-empty unit strings made of unit
characters, the unit-suffix search on numeric-text-plus-unit finds exactly
the appended unit and the numeric remainder. -/
theorem findUnitMatch_append (table : List (List Char)) (s u : List Char)
    (hs : numericPat s = true)
    (hu : u ∈ table)
    (hgood : ∀ w ∈ table, w ≠ [] ∧ ∀ c ∈ w, unitChar c = true)
    (hsorted : table.Pairwise (fun a b => b.length ≤ a.length)) :
    findUnitMatch table (s ++ u) = some (u, s) := by
  induction table with
  | nil => simp at hu
  | cons w rest ih =>
    by_cases hwu : w = u
    · subst hwu
      have hwne := (hgood w (List.mem_cons_self w rest)).1
      have hsufb : w.isSuffixOf (s ++ w) = true :=
        List.isSuffixOf_iff_suffix.mpr ⟨s, rfl⟩
      simp only [findUnitMatch, hsufb, dropSuffixN_append, hs, Bool.and_true,
        Bool.true_and, Bool.not_eq_true']
      rw [if_pos]
      simp [List.isEmpty_iff, hwne]
    · have hurest : u ∈ rest := by
        rcases List.mem_cons.mp hu with rfl | h
        · exact absurd rfl hwu
        · exact h
      have hrec := ih hurest
        (fun w' hw' => hgood w' (List.mem_cons_of_mem w hw'))
        (List.Pairwise.sublist (List.sublist_cons_self w rest) hsorted)
      have hnotsuf : w.isSuffixOf (s ++ u) = false := by
        cases hsuf : w.isSuffixOf (s ++ u) with
        | false => rfl
        | true =>
          exfalso
          obtain ⟨hwne, hwg⟩ := hgood w (List.mem_cons_self w rest)
          have hsu : w <:+ u :=
            unit_suffix_of_suffix_append hs hwg hwne
              (List.isSuffixOf_iff_suffix.mp hsuf)
          have hlen : u.length ≤ w.length := by
            have hpw := List.rel_of_pairwise_cons hsorted hurest
            exact hpw
          have : w = u := by
            have hdrop := List.suffix_iff_eq_drop.mp hsu
            have : u.length - w.length = 0 := by
              have := hsu.length_le
              omega
            rw [this, List.drop_zero] at hdrop
            exact hdrop
          exact hwu this
      simp only [findUnitMatch, hnotsuf, Bool.and_false, Bool.false_and,
        Bool.false_eq_true, if_false]
      exact hrec

/-- C7: spec round-trip property for the spec-modelled ValueParser.  For
every token matching the integer or decimal pattern and every unit of the
known unit table, parsing the bare token yields its number with empty unit,
and parsing the token with the unit appended yields the same number paired
with that unit. -/
theorem claim_C7 (s u : List Char)
    (hs : numericPat s = true)
    (hu : u ∈ unitTable) :
    parse_value s = (numFromPattern s, []) ∧
    parse_value (s ++ u) = (numFromPattern s, u) := by
  have hgood : ∀ w ∈ unitTable, w ≠ [] ∧ ∀ c ∈ w, unitChar c = true := by decide
  have hsorted : unitTable.Pairwise (fun a b => b.length ≤ a.length) := by decide
  obtain ⟨hune, hug⟩ := hgood u hu
  have hstrip1 : pyStrip s = s := pyStrip_of_no_space (numericPat_no_space hs)
  have hstrip2 : pyStrip (s ++ u) = s ++ u := by
    apply pyStrip_of_no_space
    intro c hc
    rcases List.mem_append.mp hc with h | h
    · exact numericPat_no_space hs c h
    · have := hug c h
      simp only [unitChar, Bool.not_eq_true', Bool.or_eq_false_iff] at this
      exact this.2
  have hnf := numericPat_append_false hs hune hug
  constructor
  · simp only [parse_value, hstrip1]
    rcases Bool.or_eq_true _ _ |>.mp hs with hi | hd
    · simp [hi]
    · by_cases hi : integer_number s = true
      · simp [hi]
      · simp only [Bool.not_eq_true] at hi
        simp [hi, hd]
  · simp only [parse_value, hstrip2, hnf.1, hnf.2, Bool.false_eq_true, if_false,
      findUnitMatch_append unitTable s u hs hu hgood hsorted]

/-- C7 witness: the round trip at the token 1.5 and the unit ms. -/
theorem claim_C7_witness :
    parse_value "1.5".toList = (numFromPattern "1.5".toList, []) ∧
    parse_value ("1.5".toList ++ "ms".toList) = (numFromPattern "1.5".toList, "ms".toList) :=
  claim_C7 "1.5".toList "ms".toList (by decide) (by decide)

end Rlx2Nix
